import Mathlib

/-!
# Verification of the `shorten-rs` Shorten (SHN) audio decoder core

This file gives a shallow embedding, in Lean 4, of the decoder core of the
`shorten-rs` Rust crate (`src/bitstream.rs`, `src/buffer.rs`, `src/header.rs`,
`src/decode.rs`, `src/lib.rs`) and proves properties of that embedding.

Conventions of the embedding:

* Machine integers are modelled as `Nat`/`Int` with explicit wrapping where the
  Rust release-build semantics wraps: `wrap32`/`wrap64` reduce an `Int` into the
  value range of `i32`/`i64`, and `toI32` is the `u32 as i32` cast.  Rust `/`
  and `%` on signed integers truncate toward zero, modelled by `Int.tdiv`.
* A byte source is a `List Nat`, each element a byte value (`< 256`).
* Rust panics (index out of bounds, division by zero) are modelled as
  distinguished error outcomes `Err.panicIndexOOB` / `Err.panicDivByZero`,
  separate from the `ShnError` variants that the Rust code returns as values.
* Stateful Rust code threads its state explicitly: an operation on a state `σ`
  returning `α` is a function `σ → Res σ α` where `Res` keeps the (mutated)
  state on both the success and the error path, matching Rust's in-place
  mutation of `self` even when a `?` propagates an error.
* The unbounded `while` loops of the Rust code (the unary Rice quotient loop,
  the header command loop, the per-pass command loop, the WAVE chunk scan) are
  expressed with an explicit fuel parameter; the public wrapper supplies fuel
  that provably dominates the loop's variant (each iteration consumes at least
  one bit of the remaining input, or makes progress toward the loop bound), so
  the fuel-exhaustion branch is unreachable for the wrapper's choice of fuel.
  Bounded `for` loops recurse structurally on their trip count.
-/

/-- Error outcomes of the embedded decoder: the eight `ShnError` variants of
`src/error.rs` plus two distinguished outcomes modelling Rust panics
(slice index out of bounds, integer division by zero). -/
inductive Err : Type where
  | invalidMagic : Err
  | unsupportedVersion : Nat → Err
  | unsupportedFileType : Int → Err
  | invalidCommand : Int → Err
  | invalidBlockSize : Int → Err
  | missingWaveHeader : Err
  | invalidLpcOrder : Int → Err
  | io : Err
  | panicIndexOOB : Err
  | panicDivByZero : Err
deriving Repr, DecidableEq

/-- Result of a stateful operation: the state is kept on both paths (Rust
mutates `self` in place even when an error propagates). -/
inductive Res (σ : Type) (α : Type) : Type where
  | ok : α → σ → Res σ α
  | err : Err → σ → Res σ α
deriving Repr, DecidableEq

/-- The error component of a `Res`, if any. -/
def Res.errKind {σ α : Type} : Res σ α → Option Err
  | .ok _ _ => none
  | .err e _ => some e

/-- The value component of a `Res`, if any. -/
def Res.val? {σ α : Type} : Res σ α → Option α
  | .ok a _ => some a
  | .err _ _ => none

/-- Reduce an integer into the `i32` value range `[-2^31, 2^31)`:
the semantics of wrapping 32-bit signed arithmetic. -/
def wrap32 (x : Int) : Int := (x + 2147483648) % 4294967296 - 2147483648

/-- Reduce an integer into the `i64` value range `[-2^63, 2^63)`. -/
def wrap64 (x : Int) : Int :=
  (x + 9223372036854775808) % 18446744073709551616 - 9223372036854775808

/-- The Rust `u32 as i32` cast (reinterpret modulo `2^32`). -/
def toI32 (u : Nat) : Int := wrap32 (u : Int)

/-- Rust `/` on `i64`/`i32`: division truncating toward zero. -/
def rustDiv (a b : Int) : Int := a.tdiv b

/-- Rust `>>` on `i64` (arithmetic shift; the shift amount is masked to
`0..63` in release builds): floor division by a power of two. -/
def shr64 (x : Int) (k : Nat) : Int := Int.fdiv x (2 ^ (k % 64))

/-- Rust `<<` on `i32` (release semantics: the shift amount is masked to
`0..31` and the result wraps). -/
def shlI32 (v : Int) (k : Nat) : Int := wrap32 (v * 2 ^ (k % 32))

/-! ## BitReader (`src/bitstream.rs`)

State of `BitReader<R>`: the remaining bytes of the source, the 32-bit
left-justified accumulator `buf`, and the count `bits_left` of valid
high-order bits in `buf`. -/

structure BitReader : Type where
  bytes : List Nat
  buf : Nat
  bits_left : Nat
deriving Repr, DecidableEq

/-- `BitReader::new`. -/
def BitReader.new (bytes : List Nat) : BitReader := ⟨bytes, 0, 0⟩

/-- Total number of bits still obtainable from the reader; the variant of
every unbounded read loop. -/
def totalBits (s : BitReader) : Nat := 8 * s.bytes.length + s.bits_left

/-- `read_byte_direct`: one raw byte, bypassing the bit accumulator. -/
def read_byte_direct (s : BitReader) : Res BitReader Nat :=
  match s.bytes with
  | [] => .err .io s
  | b :: rest => .ok b { s with bytes := rest }

/-- The `while` body of `BitReader::fill`, with fuel.  Each iteration pulls one
byte and OR-s it at position `24 - bits_left` (at every reachable call of the
Rust code `bits_left ≤ 24` here, since `n ≤ 25`). -/
def fillF : Nat → Nat → BitReader → Res BitReader Unit
  | 0, n, s => if s.bits_left < n then .err .io s else .ok () s
  | fuel + 1, n, s =>
    if s.bits_left < n then
      match s.bytes with
      | [] => .err .io s
      | b :: rest =>
        fillF fuel n
          { bytes := rest
            buf := (s.buf ||| (b <<< (24 - s.bits_left))) % 4294967296
            bits_left := s.bits_left + 8 }
    else .ok () s

/-- `BitReader::fill`: ensure at least `n` bits are available.  Each loop
iteration adds 8 to `bits_left`, so `n` units of fuel dominate the loop. -/
def fill (n : Nat) (s : BitReader) : Res BitReader Unit := fillF n n s

/-- `BitReader::read_bits`. -/
def read_bits (n : Nat) (s : BitReader) : Res BitReader Nat :=
  if n = 0 then .ok 0 s
  else
    match fill n s with
    | .err e s' => .err e s'
    | .ok _ s' =>
      .ok (s'.buf >>> (32 - n))
        { s' with buf := (s'.buf <<< n) % 4294967296, bits_left := s'.bits_left - n }

/-- The unary quotient loop of `read_unsigned_rice`: count leading zero bits
until a stop bit `1`, with fuel (each iteration consumes one bit, so
`totalBits s + 1` units of fuel dominate the loop; at fuel 0 the next `fill`
would fail with `Io` anyway). -/
def riceQuotientF : Nat → BitReader → Res BitReader Nat
  | 0, s => .err .io s
  | fuel + 1, s =>
    match fill 1 s with
    | .err e s' => .err e s'
    | .ok _ s' =>
      let bit := s'.buf >>> 31
      let s'' : BitReader :=
        { s' with buf := (s'.buf <<< 1) % 4294967296, bits_left := s'.bits_left - 1 }
      if bit = 0 then
        match riceQuotientF fuel s'' with
        | .ok q s3 => .ok (q + 1) s3
        | .err e s3 => .err e s3
      else .ok 0 s''

/-- The unary quotient loop with its dominating fuel. -/
def riceQuotient (s : BitReader) : Res BitReader Nat :=
  riceQuotientF (totalBits s + 1) s

/-- `BitReader::read_unsigned_rice` (`uvar_get`): unary quotient `q`, then `k`
mantissa bits `r`; value `(q << k) | r` as a `u32`. -/
def read_unsigned_rice (k : Nat) (s : BitReader) : Res BitReader Nat :=
  match riceQuotient s with
  | .err e s1 => .err e s1
  | .ok q s1 =>
    match (if k > 0 then read_bits k s1 else .ok 0 s1) with
    | .err e s2 => .err e s2
    | .ok r s2 => .ok (((q <<< k) % 4294967296) ||| r) s2

/-- `BitReader::read_signed_rice` (`var_get`): unsigned Rice with `k+1`
mantissa bits, then sign-unfold (even ↦ `u >> 1`, odd ↦ `-(u >> 1) - 1`). -/
def read_signed_rice (k : Nat) (s : BitReader) : Res BitReader Int :=
  match read_unsigned_rice (k + 1) s with
  | .err e s1 => .err e s1
  | .ok u s1 =>
    .ok (if u &&& 1 = 0 then ((u >>> 1 : Nat) : Int) else -((u >>> 1 : Nat) : Int) - 1) s1

/-- `BitReader::read_ulong`: `nbits = uvar_get(2)`, then `value = uvar_get(nbits)`. -/
def read_ulong (s : BitReader) : Res BitReader Nat :=
  match read_unsigned_rice 2 s with
  | .err e s1 => .err e s1
  | .ok nbits s1 => read_unsigned_rice nbits s1

/-! ## ChannelBuffer and MeanAccumulator (`src/buffer.rs`) -/

/-- `NWRAP`: number of history samples kept before the current block. -/
def NWRAP : Nat := 3

/-- Per-channel sample buffer: `NWRAP` history samples followed by the
current block. -/
structure ChannelBuffer : Type where
  data : List Int
  blocksize : Nat
deriving Repr, DecidableEq

/-- `ChannelBuffer::new`. -/
def ChannelBuffer.new (blocksize : Nat) : ChannelBuffer :=
  ⟨List.replicate (NWRAP + blocksize) 0, blocksize⟩

/-- `Vec::resize` on a list: truncate or extend with zeroes to length `n`. -/
def vecResize (l : List Int) (n : Nat) : List Int :=
  l.take n ++ List.replicate (n - l.length) 0

/-- `ChannelBuffer::resize`: resize for a new block size, preserving the
existing prefix (history included). -/
def ChannelBuffer.resize (b : ChannelBuffer) (new_blocksize : Nat) : ChannelBuffer :=
  if new_blocksize ≠ b.blocksize then
    ⟨vecResize b.data (NWRAP + new_blocksize), new_blocksize⟩
  else b

/-- `ChannelBuffer::get`: sample at position `i` relative to the block start
(negative `i` reads the history region).  The Rust code computes
`(NWRAP as isize + i) as usize` and indexes `data`; a negative physical index
wraps to a huge `usize` and the indexing panics, modelled here by `none`. -/
def ChannelBuffer.getE (b : ChannelBuffer) (i : Int) : Option Int :=
  let idx : Int := (NWRAP : Int) + i
  if 0 ≤ idx ∧ idx.toNat < b.data.length then some (b.data.getD idx.toNat 0) else none

/-- `ChannelBuffer::set` (same indexing convention; `none` models the panic). -/
def ChannelBuffer.setE (b : ChannelBuffer) (i : Int) (val : Int) : Option ChannelBuffer :=
  let idx : Int := (NWRAP : Int) + i
  if 0 ≤ idx ∧ idx.toNat < b.data.length then
    some { b with data := b.data.set idx.toNat val }
  else none

/-- Read at a physical storage index (`none` models the panic). -/
def physGet (b : ChannelBuffer) (n : Nat) : Option Int :=
  b.data.get? n

/-- Write at a physical storage index (`none` models the panic). -/
def physSet (b : ChannelBuffer) (n : Nat) (v : Int) : Option ChannelBuffer :=
  if n < b.data.length then some { b with data := b.data.set n v } else none

/-- The `for` loop of `ChannelBuffer::wrap_around`: `data[i] = data[bs + i]`
for `i` in `0..NWRAP`, structurally on the remaining trip count. -/
def wrapLoop (b : ChannelBuffer) (i : Nat) : Nat → Except Err ChannelBuffer
  | 0 => .ok b
  | c + 1 =>
    match physGet b (b.blocksize + i) with
    | none => .error .panicIndexOOB
    | some v =>
      match physSet b i v with
      | none => .error .panicIndexOOB
      | some b' => wrapLoop b' (i + 1) c

/-- `ChannelBuffer::wrap_around`: copy the last `NWRAP` samples of the block
into the history region. -/
def ChannelBuffer.wrap_aroundE (b : ChannelBuffer) : Except Err ChannelBuffer :=
  wrapLoop b 0 NWRAP

/-- `ChannelBuffer::block_samples` (`&data[NWRAP..NWRAP + blocksize]`): the
slice panics when the buffer is shorter than `NWRAP + blocksize`. -/
def blockSamplesE (b : ChannelBuffer) : Except Err (List Int) :=
  if NWRAP + b.blocksize ≤ b.data.length then
    .ok ((b.data.drop NWRAP).take b.blocksize)
  else .error .panicIndexOOB

/-- Rolling mean tracker (`MeanAccumulator`). -/
structure MeanAccumulator : Type where
  values : List Int
  index : Nat
deriving Repr, DecidableEq

/-- `MeanAccumulator::new`. -/
def MeanAccumulator.new (nmean : Nat) : MeanAccumulator :=
  ⟨List.replicate nmean 0, 0⟩

/-- The `i64` sum of an iterator of `i32` values (`.map(|&v| v as i64).sum()`);
each addition wraps in `i64`. -/
def i64Sum (l : List Int) : Int := l.foldl (fun acc v => wrap64 (acc + v)) 0

/-- `MeanAccumulator::coffset`: `((sum + nmean/2) / nmean) as i32` over all
`nmean` slots (unfilled slots are zero); `0` when `nmean = 0`. -/
def MeanAccumulator.coffset (m : MeanAccumulator) (_blocksize : Nat) : Int :=
  let nmean := m.values.length
  if nmean = 0 then 0
  else
    let sum : Int := i64Sum m.values
    let nmean_i64 : Int := (nmean : Int)
    wrap32 (rustDiv (wrap64 (sum + rustDiv nmean_i64 2)) nmean_i64)

/-- `MeanAccumulator::push`: overwrite slot `index % cap` and bump `index`;
no-op when the window is empty. -/
def MeanAccumulator.push (m : MeanAccumulator) (block_sum : Int) : MeanAccumulator :=
  let cap := m.values.length
  if cap = 0 then m
  else { values := m.values.set (m.index % cap) block_sum, index := m.index + 1 }

/-- `MeanAccumulator::capacity`. -/
def MeanAccumulator.capacity (m : MeanAccumulator) : Nat := m.values.length

/-! ## Header parsing (`src/header.rs`) -/

/-- The Shorten magic bytes `b"ajkg"`. -/
def MAGIC : List Nat := [0x61, 0x6A, 0x6B, 0x67]

def TYPE_S8 : Int := 1
def TYPE_U16LH : Int := 6

def DEFAULT_V0_NMEAN : Nat := 0
def DEFAULT_V2_NMEAN : Nat := 4
def DEFAULT_BLOCK_SIZE : Nat := 256
def DEFAULT_MAXNLPC : Nat := 0
def DEFAULT_NSKIP : Nat := 0

def FNSIZE : Nat := 2
def VERBATIM_CKSIZE_SIZE : Nat := 5
def VERBATIM_BYTE_SIZE : Nat := 8

/-- Parsed Shorten header (`ShnHeader`). -/
structure ShnHeader : Type where
  version : Nat
  file_type : Int
  channels : Nat
  blocksize : Nat
  maxnlpc : Nat
  nmean : Nat
  nskip : Nat
  first_audio_cmd : Option Int
deriving Repr, DecidableEq

/-- Information from the embedded WAVE header (`WaveInfo`). -/
structure WaveInfo : Type where
  sample_rate : Nat
  bits_per_sample : Nat
  channels : Nat
  data_bytes : Nat
deriving Repr, DecidableEq

/-- `u32::from_le_bytes`. -/
def leU32 (b0 b1 b2 b3 : Nat) : Nat := b0 + 256 * b1 + 65536 * b2 + 16777216 * b3

/-- `u16::from_le_bytes`. -/
def leU16 (b0 b1 : Nat) : Nat := b0 + 256 * b1

/-- The chunk-scanning `while` loop of `parse_wave_header`, with fuel (each
iteration advances `pos` by at least 8, so `data.length + 1` units of fuel
dominate the loop; the fuel-0 branch replays the loop epilogue). -/
def waveChunkLoopF : Nat → List Nat → Nat → Bool → Nat → Nat → Nat → Except Err WaveInfo
  | 0, _, _, fmt_found, sr, bps, ch =>
    if fmt_found then .ok ⟨sr, bps, ch, 0⟩ else .error .missingWaveHeader
  | fuel + 1, data, pos, fmt_found, sr, bps, ch =>
    if pos + 8 ≤ data.length then
      let chunk_id := (data.drop pos).take 4
      let chunk_size := leU32 (data.getD (pos + 4) 0) (data.getD (pos + 5) 0)
        (data.getD (pos + 6) 0) (data.getD (pos + 7) 0)
      if chunk_id = [0x66, 0x6D, 0x74, 0x20] then
        if pos + 8 + chunk_size > data.length ∨ chunk_size < 16 then
          .error .missingWaveHeader
        else
          let fmt_data := data.drop (pos + 8)
          let ch' := leU16 (fmt_data.getD 2 0) (fmt_data.getD 3 0)
          let sr' := leU32 (fmt_data.getD 4 0) (fmt_data.getD 5 0)
            (fmt_data.getD 6 0) (fmt_data.getD 7 0)
          let bps' := leU16 (fmt_data.getD 14 0) (fmt_data.getD 15 0)
          waveChunkLoopF fuel data
            (pos + 8 + chunk_size + (if chunk_size % 2 ≠ 0 then 1 else 0)) true sr' bps' ch'
      else if chunk_id = [0x64, 0x61, 0x74, 0x61] then
        if fmt_found = false then .error .missingWaveHeader
        else .ok ⟨sr, bps, ch, chunk_size % 4294967296⟩
      else
        waveChunkLoopF fuel data
          (pos + 8 + chunk_size + (if chunk_size % 2 ≠ 0 then 1 else 0)) fmt_found sr bps ch
    else if fmt_found then .ok ⟨sr, bps, ch, 0⟩ else .error .missingWaveHeader

/-- `parse_wave_header`: extract audio parameters from a RIFF/WAVE header
embedded as verbatim data. -/
def parse_wave_header (data : List Nat) : Except Err WaveInfo :=
  if data.length < 44 then .error .missingWaveHeader
  else if (data.take 4) ≠ [0x52, 0x49, 0x46, 0x46] then .error .missingWaveHeader
  else if ((data.drop 8).take 4) ≠ [0x57, 0x41, 0x56, 0x45] then .error .missingWaveHeader
  else waveChunkLoopF (data.length + 1) data 12 false 0 0 0

/-- `read_verbatim_bytes`: `n` bytes, each Rice-coded with `k = 8` and cast
`as u8`. -/
def read_verbatim_bytes : Nat → BitReader → Res BitReader (List Nat)
  | 0, s => .ok [] s
  | n + 1, s =>
    match read_unsigned_rice VERBATIM_BYTE_SIZE s with
    | .err e s' => .err e s'
    | .ok v s' =>
      match read_verbatim_bytes n s' with
      | .err e s2 => .err e s2
      | .ok rest s2 => .ok ((v % 256) :: rest) s2

/-- The `for _ in 0..nskip { read_ulong }` loop of `parse_header`. -/
def skipUlongs : Nat → BitReader → Res BitReader Unit
  | 0, s => .ok () s
  | n + 1, s =>
    match read_ulong s with
    | .err e s' => .err e s'
    | .ok _ s' => skipUlongs n s'

/-- The command loop at the end of `parse_header`: consume VERBATIM blocks
(parsing the first WAVE header found), stop at the first non-VERBATIM
command.  Fuel: every iteration consumes at least one bit. -/
def headerCmdLoopF : Nat → Option WaveInfo → BitReader → Res BitReader (Int × Option WaveInfo)
  | 0, _, s => .err .io s
  | fuel + 1, wave_info, s =>
    match read_unsigned_rice FNSIZE s with
    | .err e s1 => .err e s1
    | .ok v s1 =>
      let cmd := toI32 v
      if cmd = 9 then
        match read_unsigned_rice VERBATIM_CKSIZE_SIZE s1 with
        | .err e s2 => .err e s2
        | .ok nbytes s2 =>
          match read_verbatim_bytes nbytes s2 with
          | .err e s3 => .err e s3
          | .ok verbatim_data s3 =>
            let wave_info' :=
              if wave_info.isNone then
                match parse_wave_header verbatim_data with
                | .ok wi => some wi
                | .error _ => wave_info
              else wave_info
            headerCmdLoopF fuel wave_info' s3
      else .ok (cmd, wave_info) s1

/-- Read and check the four magic bytes (raw reads, then compare). -/
def readMagic (s : BitReader) : Res BitReader (List Nat) :=
  match read_byte_direct s with
  | .err e s1 => .err e s1
  | .ok b0 s1 =>
    match read_byte_direct s1 with
    | .err e s2 => .err e s2
    | .ok b1 s2 =>
      match read_byte_direct s2 with
      | .err e s3 => .err e s3
      | .ok b2 s3 =>
        match read_byte_direct s3 with
        | .err e s4 => .err e s4
        | .ok b3 s4 => .ok [b0, b1, b2, b3] s4

/-- `parse_header`: magic, version, `ulong` header fields (defaults below
version 2), `nskip` discarded `ulong`s, then the verbatim drain; returns the
parsed header (with the pre-read first audio command) and the WAVE info
(inferred from `file_type` when no WAVE header was recovered). -/
def parse_header (s : BitReader) : Res BitReader (ShnHeader × WaveInfo) :=
  match readMagic s with
  | .err e s1 => .err e s1
  | .ok magic s1 =>
    if magic ≠ MAGIC then .err .invalidMagic s1
    else
      match read_byte_direct s1 with
      | .err e s2 => .err e s2
      | .ok version s2 =>
        if version = 0 ∨ version > 3 then .err (.unsupportedVersion version) s2
        else
          match read_ulong s2 with
          | .err e s3 => .err e s3
          | .ok ftRaw s3 =>
            let file_type := toI32 ftRaw
            if ¬(TYPE_S8 ≤ file_type ∧ file_type ≤ TYPE_U16LH) then
              .err (.unsupportedFileType file_type) s3
            else
              match read_ulong s3 with
              | .err e s4 => .err e s4
              | .ok channels s4 =>
                match
                  (if version ≥ 2 then
                    match read_ulong s4 with
                    | .err e t1 => .err e t1
                    | .ok bs t1 =>
                      match read_ulong t1 with
                      | .err e t2 => .err e t2
                      | .ok maxnlpc t2 =>
                        match read_ulong t2 with
                        | .err e t3 => .err e t3
                        | .ok nmean t3 =>
                          match read_ulong t3 with
                          | .err e t4 => .err e t4
                          | .ok nskip t4 => .ok (bs, maxnlpc, nmean, nskip) t4
                  else
                    .ok (DEFAULT_BLOCK_SIZE, DEFAULT_MAXNLPC,
                      (if version ≥ 1 then DEFAULT_V2_NMEAN else DEFAULT_V0_NMEAN),
                      DEFAULT_NSKIP) s4 : Res BitReader (Nat × Nat × Nat × Nat))
                with
                | .err e s5 => .err e s5
                | .ok (blocksize, maxnlpc, nmean, nskip) s5 =>
                  match skipUlongs nskip s5 with
                  | .err e s6 => .err e s6
                  | .ok _ s6 =>
                    match headerCmdLoopF (totalBits s6 + 1) none s6 with
                    | .err e s7 => .err e s7
                    | .ok (first_cmd, wave_opt) s7 =>
                      let wave_info :=
                        match wave_opt with
                        | some wi => wi
                        | none =>
                          { sample_rate := 44100
                            bits_per_sample :=
                              if file_type = 1 ∨ file_type = 2 then 8 else 16
                            channels := channels
                            data_bytes := 0 }
                      .ok ({ version := version, file_type := file_type,
                             channels := channels, blocksize := blocksize,
                             maxnlpc := maxnlpc, nmean := nmean, nskip := nskip,
                             first_audio_cmd := some first_cmd }, wave_info) s7

/-! ## Decoder state machine (`src/decode.rs`) -/

def FN_DIFF0 : Int := 0
def FN_DIFF1 : Int := 1
def FN_DIFF2 : Int := 2
def FN_DIFF3 : Int := 3
def FN_QUIT : Int := 4
def FN_BLOCKSIZE : Int := 5
def FN_BITSHIFT : Int := 6
def FN_QLPC : Int := 7
def FN_ZERO : Int := 8
def FN_VERBATIM : Int := 9

def ENERGYSIZE : Nat := 3
def BITSHIFTSIZE : Nat := 2
def LPCQSIZE : Nat := 2
def LPCQUANT : Nat := 5

/-- Fixed-predictor coefficients (`FIXED_COEFFS`): DIFF0 predicts 0, DIFF1
predicts `s[-1]`, DIFF2 predicts `2 s[-1] - s[-2]`, DIFF3 predicts
`3 s[-1] - 3 s[-2] + s[-3]`. -/
def FIXED_COEFFS : List (List Int) := [[0, 0, 0], [1, 0, 0], [2, -1, 0], [3, -3, 1]]

/-- Decoder state (`Decoder<R>`). -/
structure Decoder : Type where
  reader : BitReader
  channels : Nat
  blocksize : Nat
  maxnlpc : Nat
  nmean : Nat
  version : Nat
  bitshift : Nat
  buffers : List ChannelBuffer
  means : List MeanAccumulator
  current_channel : Nat
  finished : Bool
  output_buf : List Int
  output_pos : Nat
  pending_cmd : Option Int
deriving Repr, DecidableEq

/-- `Decoder::new`. -/
def Decoder.new (reader : BitReader) (header : ShnHeader) : Decoder :=
  { reader := reader
    channels := header.channels
    blocksize := header.blocksize
    maxnlpc := header.maxnlpc
    nmean := header.nmean
    version := header.version
    bitshift := 0
    buffers := List.replicate header.channels (ChannelBuffer.new header.blocksize)
    means := List.replicate header.channels (MeanAccumulator.new header.nmean)
    current_channel := 0
    finished := false
    output_buf := []
    output_pos := 0
    pending_cmd := header.first_audio_cmd }

/-- The coefficient loop of `decode_fixed_prediction`
(`for (j, &c) in coeffs.iter().enumerate().take(order)`): accumulate
`pred += c * buf.get(ii - j - 1)` in wrapping `i32` arithmetic. -/
def fixedPredLoop (buf : ChannelBuffer) (ii : Int) : List Int → Nat → Int → Except Err Int
  | [], _, pred => .ok pred
  | c :: rest, j, pred =>
    match buf.getE (ii - (j : Int) - 1) with
    | none => .error .panicIndexOOB
    | some s => fixedPredLoop buf ii rest (j + 1) (wrap32 (pred + wrap32 (c * s)))

/-- The per-sample loop of `decode_fixed_prediction`: read a signed Rice
residual, compute the prediction (the DC offset for order 0, otherwise the
coefficient fold), store `residual + prediction` (wrapping `i32`). -/
def fixedLoop (energy : Nat) (coffset : Int) (order : Nat) (coeffs : List Int) :
    Nat → ChannelBuffer → BitReader → Nat → Res (ChannelBuffer × BitReader) Unit
  | _, buf, r, 0 => .ok () (buf, r)
  | i, buf, r, count + 1 =>
    match read_signed_rice energy r with
    | .err e r1 => .err e (buf, r1)
    | .ok residual r1 =>
      match
        (if order = 0 then .ok coffset
         else fixedPredLoop buf (i : Int) (coeffs.take order) 0 0 : Except Err Int)
      with
      | .error e => .err e (buf, r1)
      | .ok prediction =>
        match buf.setE (i : Int) (wrap32 (residual + prediction)) with
        | none => .err .panicIndexOOB (buf, r1)
        | some buf1 => fixedLoop energy coffset order coeffs (i + 1) buf1 r1 count

/-- The per-sample loop of `decode_qlpc`: read a signed Rice residual, fold the
LPC coefficients over past samples in `i64`, shift right by `LPCQUANT`, cast
to `i32`, store `residual + predicted` (wrapping `i32`). -/
def qlpcPredLoop (buf : ChannelBuffer) (ii : Int) : List Int → Nat → Int → Except Err Int
  | [], _, pred => .ok pred
  | c :: rest, j, pred =>
    match buf.getE (ii - (j : Int) - 1) with
    | none => .error .panicIndexOOB
    | some s => qlpcPredLoop buf ii rest (j + 1) (wrap64 (pred + wrap64 (c * s)))

def qlpcLoop (energy : Nat) (lpc_coeffs : List Int) :
    Nat → ChannelBuffer → BitReader → Nat → Res (ChannelBuffer × BitReader) Unit
  | _, buf, r, 0 => .ok () (buf, r)
  | i, buf, r, count + 1 =>
    match read_signed_rice energy r with
    | .err e r1 => .err e (buf, r1)
    | .ok residual r1 =>
      match qlpcPredLoop buf (i : Int) lpc_coeffs 0 0 with
      | .error e => .err e (buf, r1)
      | .ok prediction =>
        let predicted := wrap32 (shr64 prediction LPCQUANT)
        match buf.setE (i : Int) (wrap32 (residual + predicted)) with
        | none => .err .panicIndexOOB (buf, r1)
        | some buf1 => qlpcLoop energy lpc_coeffs (i + 1) buf1 r1 count

/-- The coefficient-reading loop of `decode_qlpc`. -/
def readCoeffs : Nat → BitReader → Res BitReader (List Int)
  | 0, s => .ok [] s
  | n + 1, s =>
    match read_signed_rice LPCQSIZE s with
    | .err e s' => .err e s'
    | .ok c s' =>
      match readCoeffs n s' with
      | .err e s2 => .err e s2
      | .ok rest s2 => .ok (c :: rest) s2

/-- The `for` loop of the `FN_ZERO` arm: `buf.set(i, 0)` for `i` in `0..bs`. -/
def zeroLoop : Nat → ChannelBuffer → Nat → Except Err ChannelBuffer
  | _, buf, 0 => .ok buf
  | i, buf, count + 1 =>
    match buf.setE (i : Int) 0 with
    | none => .error .panicIndexOOB
    | some buf1 => zeroLoop (i + 1) buf1 count

/-- The bitshift loop of `finish_channel_block`: left-shift every block sample
by `bitshift` (wrapping `i32` shift). -/
def shiftLoop (bitshift : Nat) : Nat → ChannelBuffer → Nat → Except Err ChannelBuffer
  | _, buf, 0 => .ok buf
  | i, buf, count + 1 =>
    match buf.getE (i : Int) with
    | none => .error .panicIndexOOB
    | some v =>
      match buf.setE (i : Int) (shlI32 v bitshift) with
      | none => .error .panicIndexOOB
      | some buf1 => shiftLoop bitshift (i + 1) buf1 count

/-- The block-sum fold of `finish_channel_block`
(`(0..bs).map(|i| buf.get(i) as i64).sum()`). -/
def blockSumLoop : Nat → ChannelBuffer → Nat → Int → Except Err Int
  | _, _, 0, acc => .ok acc
  | i, buf, count + 1, acc =>
    match buf.getE (i : Int) with
    | none => .error .panicIndexOOB
    | some v => blockSumLoop (i + 1) buf count (wrap64 (acc + v))

/-- `Decoder::finish_channel_block`: apply the bitshift, push the rounded
per-block mean (when `nmean > 0`; division by `blocksize` panics when the
block size is zero), wrap the history around, advance `current_channel`
(`% channels` panics when `channels` is zero). -/
def finish_channel_block (ch : Nat) (d : Decoder) : Res Decoder Unit :=
  let bs := d.blocksize
  match d.buffers.get? ch with
  | none => .err .panicIndexOOB d
  | some buf =>
    match (if d.bitshift > 0 then shiftLoop d.bitshift 0 buf bs else .ok buf) with
    | .error e => .err e d
    | .ok buf1 =>
      match d.means.get? ch with
      | none => .err .panicIndexOOB d
      | some macc =>
        match
          (if d.nmean > 0 then
            match blockSumLoop 0 buf1 bs 0 with
            | .error e => .error e
            | .ok block_sum =>
              let effective_sum :=
                if d.bitshift > 0 then shr64 block_sum d.bitshift else block_sum
              let bs_i64 : Int := (bs : Int)
              if bs_i64 = 0 then .error .panicDivByZero
              else
                .ok (macc.push
                  (wrap32 (rustDiv (wrap64 (effective_sum + rustDiv bs_i64 2)) bs_i64)))
          else .ok macc : Except Err MeanAccumulator)
        with
        | .error e => .err e d
        | .ok macc1 =>
          match buf1.wrap_aroundE with
          | .error e => .err e d
          | .ok buf2 =>
            if d.channels = 0 then .err .panicDivByZero d
            else
              .ok ()
                { d with
                  buffers := d.buffers.set ch buf2
                  means := d.means.set ch macc1
                  current_channel := (d.current_channel + 1) % d.channels }

/-- `Decoder::decode_fixed_prediction` (DIFF0–DIFF3). -/
def decode_fixed_prediction (order : Nat) (d : Decoder) : Res Decoder Unit :=
  match read_unsigned_rice ENERGYSIZE d.reader with
  | .err e r1 => .err e { d with reader := r1 }
  | .ok energy r1 =>
    let ch := d.current_channel
    let bs := d.blocksize
    match d.buffers.get? ch with
    | none => .err .panicIndexOOB { d with reader := r1 }
    | some buf0 =>
      let buf := buf0.resize bs
      match d.means.get? ch with
      | none => .err .panicIndexOOB { d with reader := r1 }
      | some macc =>
        let coffset := macc.coffset bs
        let coeffs := FIXED_COEFFS.getD order []
        match fixedLoop energy coffset order coeffs 0 buf r1 bs with
        | .err e (buf', r2) =>
          .err e { d with reader := r2, buffers := d.buffers.set ch buf' }
        | .ok _ (buf', r2) =>
          finish_channel_block ch
            { d with reader := r2, buffers := d.buffers.set ch buf' }

/-- `Decoder::decode_qlpc`. -/
def decode_qlpc (d : Decoder) : Res Decoder Unit :=
  match read_unsigned_rice ENERGYSIZE d.reader with
  | .err e r1 => .err e { d with reader := r1 }
  | .ok energy r1 =>
    match read_unsigned_rice LPCQSIZE r1 with
    | .err e r2 => .err e { d with reader := r2 }
    | .ok lpc_order r2 =>
      if lpc_order > d.maxnlpc ∨ lpc_order > 128 then
        .err (.invalidLpcOrder (toI32 lpc_order)) { d with reader := r2 }
      else
        match readCoeffs lpc_order r2 with
        | .err e r3 => .err e { d with reader := r3 }
        | .ok lpc_coeffs r3 =>
          let ch := d.current_channel
          let bs := d.blocksize
          match d.buffers.get? ch with
          | none => .err .panicIndexOOB { d with reader := r3 }
          | some buf0 =>
            let buf := buf0.resize bs
            match qlpcLoop energy lpc_coeffs 0 buf r3 bs with
            | .err e (buf', r4) =>
              .err e { d with reader := r4, buffers := d.buffers.set ch buf' }
            | .ok _ (buf', r4) =>
              finish_channel_block ch
                { d with reader := r4, buffers := d.buffers.set ch buf' }

/-- The `FN_ZERO` arm: fill the current channel's block with zeroes and run the
post-block finalization. -/
def zeroBlock (d : Decoder) : Res Decoder Unit :=
  let ch := d.current_channel
  let bs := d.blocksize
  match d.buffers.get? ch with
  | none => .err .panicIndexOOB d
  | some buf0 =>
    let buf := buf0.resize bs
    match zeroLoop 0 buf bs with
    | .error e => .err e d
    | .ok buf1 => finish_channel_block ch { d with buffers := d.buffers.set ch buf1 }

/-- The `FN_VERBATIM` arm's byte-skipping loop. -/
def skipVerbatim : Nat → BitReader → Res BitReader Unit
  | 0, s => .ok () s
  | n + 1, s =>
    match read_unsigned_rice VERBATIM_BYTE_SIZE s with
    | .err e s' => .err e s'
    | .ok _ s' => skipVerbatim n s'

/-- Fetch the next command id: the pre-read `pending_cmd` if present
(`Option::take`), otherwise `read_unsigned_rice(FNSIZE) as i32`. -/
def takeCmd (d : Decoder) : Res Decoder Int :=
  match d.pending_cmd with
  | some c => .ok c { d with pending_cmd := none }
  | none =>
    match read_unsigned_rice FNSIZE d.reader with
    | .err e r' => .err e { d with reader := r' }
    | .ok v r' => .ok (toI32 v) { d with reader := r' }

/-- The command loop of `decode_next_block` (`while blocks_decoded < nchan`),
with fuel.  The result value is `false` when `FN_QUIT` terminated the pass and
`true` when one block per channel was produced.  Fuel: every iteration either
consumes the pending command, consumes at least one bit, or increments
`blocks_decoded` toward `nchan`, so
`nchan + 2 * totalBits + pending + 1` units dominate the loop. -/
def decodeLoopF : Nat → Nat → Nat → Decoder → Res Decoder Bool
  | 0, _, _, d => .err .io d
  | fuel + 1, nchan, blocks_decoded, d =>
    if blocks_decoded < nchan then
      match takeCmd d with
      | .err e d1 => .err e d1
      | .ok cmd d1 =>
        if cmd = FN_QUIT then .ok false { d1 with finished := true }
        else if cmd = FN_BLOCKSIZE then
          match read_ulong d1.reader with
          | .err e r => .err e { d1 with reader := r }
          | .ok v r =>
            let new_bs := toI32 v
            if new_bs ≤ 0 ∨ new_bs > 65536 then
              .err (.invalidBlockSize new_bs) { d1 with reader := r }
            else
              decodeLoopF fuel nchan blocks_decoded
                { d1 with
                  reader := r
                  blocksize := new_bs.toNat
                  buffers := d1.buffers.map (fun b => b.resize new_bs.toNat) }
        else if cmd = FN_BITSHIFT then
          match read_unsigned_rice BITSHIFTSIZE d1.reader with
          | .err e r => .err e { d1 with reader := r }
          | .ok v r => decodeLoopF fuel nchan blocks_decoded { d1 with reader := r, bitshift := v }
        else if cmd = FN_VERBATIM then
          match read_unsigned_rice VERBATIM_CKSIZE_SIZE d1.reader with
          | .err e r => .err e { d1 with reader := r }
          | .ok nbytes r =>
            match skipVerbatim nbytes r with
            | .err e r2 => .err e { d1 with reader := r2 }
            | .ok _ r2 => decodeLoopF fuel nchan blocks_decoded { d1 with reader := r2 }
        else if cmd = FN_ZERO then
          match zeroBlock d1 with
          | .err e d2 => .err e d2
          | .ok _ d2 => decodeLoopF fuel nchan (blocks_decoded + 1) d2
        else if cmd = FN_DIFF0 ∨ cmd = FN_DIFF1 ∨ cmd = FN_DIFF2 ∨ cmd = FN_DIFF3 then
          match decode_fixed_prediction cmd.toNat d1 with
          | .err e d2 => .err e d2
          | .ok _ d2 => decodeLoopF fuel nchan (blocks_decoded + 1) d2
        else if cmd = FN_QLPC then
          match decode_qlpc d1 with
          | .err e d2 => .err e d2
          | .ok _ d2 => decodeLoopF fuel nchan (blocks_decoded + 1) d2
        else .err (.invalidCommand cmd) d1
    else .ok true d

/-- One cell of the interleaving loop: `self.buffers[ch].block_samples()[i]`. -/
def interleaveCell (buffers : List ChannelBuffer) (ch i : Nat) : Except Err Int :=
  match buffers.get? ch with
  | none => .error .panicIndexOOB
  | some buf =>
    match blockSamplesE buf with
    | .error e => .error e
    | .ok row =>
      match row.get? i with
      | none => .error .panicIndexOOB
      | some v => .ok v

/-- The inner (`ch`) interleaving loop, structurally on the remaining trip
count. -/
def interleaveRow (buffers : List ChannelBuffer) (i : Nat) : Nat → Nat → Except Err (List Int)
  | _, 0 => .ok []
  | ch, count + 1 =>
    match interleaveCell buffers ch i with
    | .error e => .error e
    | .ok v =>
      match interleaveRow buffers i (ch + 1) count with
      | .error e => .error e
      | .ok rest => .ok (v :: rest)

/-- The outer (`i`) interleaving loop. -/
def interleaveAll (buffers : List ChannelBuffer) (nchan : Nat) : Nat → Nat → Except Err (List Int)
  | _, 0 => .ok []
  | i, count + 1 =>
    match interleaveRow buffers i 0 nchan with
    | .error e => .error e
    | .ok row =>
      match interleaveAll buffers nchan (i + 1) count with
      | .error e => .error e
      | .ok rest => .ok (row ++ rest)

/-- `Decoder::interleave_output`: refill `output_buf` with one block's worth of
interleaved samples (a direct copy in the mono case). -/
def interleave_output (d : Decoder) : Res Decoder Unit :=
  let nchan := d.channels
  let bs := d.blocksize
  if nchan = 1 then
    match d.buffers.get? 0 with
    | none => .err .panicIndexOOB d
    | some buf =>
      match blockSamplesE buf with
      | .error e => .err e d
      | .ok samples => .ok () { d with output_buf := samples, output_pos := 0 }
  else
    match interleaveAll d.buffers nchan 0 bs with
    | .error e => .err e d
    | .ok out => .ok () { d with output_buf := out, output_pos := 0 }

/-- Fuel dominating the command loop of one `decode_next_block` call. -/
def decodeFuel (d : Decoder) : Nat := d.channels + 2 * totalBits d.reader + 2

/-- `Decoder::decode_next_block`: returns `true` when a block was decoded
(and interleaved into `output_buf`), `false` when the stream has ended. -/
def decode_next_block (d : Decoder) : Res Decoder Bool :=
  if d.finished then .ok false d
  else
    match decodeLoopF (decodeFuel d) d.channels 0 d with
    | .err e d' => .err e d'
    | .ok false d' => .ok false d'
    | .ok true d' =>
      match interleave_output d' with
      | .err e d'' => .err e d''
      | .ok _ d'' => .ok true d''

/-- `Decoder::next_sample`: the next sample of `output_buf`, if any. -/
def next_sample (d : Decoder) : Option (Int × Decoder) :=
  if d.output_pos < d.output_buf.length then
    some (d.output_buf.getD d.output_pos 0, { d with output_pos := d.output_pos + 1 })
  else none

/-! ## Reader façade (`src/lib.rs`) -/

/-- Audio metadata (`ShnInfo`). -/
structure ShnInfo : Type where
  channels : Nat
  sample_rate : Nat
  bits_per_sample : Nat
deriving Repr, DecidableEq

/-- `ShnReader::new`: parse the header eagerly, then build the decoder. -/
def ShnReader.new (bytes : List Nat) : Except Err (Decoder × ShnInfo) :=
  match parse_header (BitReader.new bytes) with
  | .err e _ => .error e
  | .ok (shn_header, wave_info) r =>
    .ok (Decoder.new r shn_header,
      { channels := wave_info.channels
        sample_rate := wave_info.sample_rate
        bits_per_sample := wave_info.bits_per_sample })

/-- `<ShnSamples as Iterator>::next`: one element of the lazy sample sequence
(`none` models the iterator yielding no element), together with the decoder
state after the call. -/
def ShnSamples.next (d : Decoder) : Option (Except Err Int) × Decoder :=
  match next_sample d with
  | some (s, d') => (some (.ok s), d')
  | none =>
    if d.finished then (none, d)
    else
      match decode_next_block d with
      | .ok true d' =>
        match next_sample d' with
        | some (s, d'') => (some (.ok s), d'')
        | none => (none, d')
      | .ok false d' => (none, d')
      | .err e d' => (some (.error e), d')

/-! ## Specification-level definitions used to state the claims -/

/-- The closed-form fixed prediction of the specification: `coffset` for
order 0, `s[i-1]` for order 1, `2·s[i-1] − s[i-2]` for order 2 and
`3·s[i-1] − 3·s[i-2] + s[i-3]` for order 3, the polynomial evaluated over the
unbounded integers (samples read exactly as the code reads them). -/
def claimPrediction (coffset : Int) (order : Nat) (buf : ChannelBuffer) (ii : Int) :
    Except Err Int :=
  if order = 0 then .ok coffset
  else if order = 1 then
    match buf.getE (ii - 1) with
    | none => .error .panicIndexOOB
    | some s1 => .ok s1
  else if order = 2 then
    match buf.getE (ii - 1) with
    | none => .error .panicIndexOOB
    | some s1 =>
      match buf.getE (ii - 2) with
      | none => .error .panicIndexOOB
      | some s2 => .ok (2 * s1 - s2)
  else
    match buf.getE (ii - 1) with
    | none => .error .panicIndexOOB
    | some s1 =>
      match buf.getE (ii - 2) with
      | none => .error .panicIndexOOB
      | some s2 =>
        match buf.getE (ii - 3) with
        | none => .error .panicIndexOOB
        | some s3 => .ok (3 * s1 - 3 * s2 + s3)

/-- The per-sample loop of the specification's fixed-predictor description:
`s[i] = r + p` performed in wrapping 32-bit signed arithmetic, with `r` the
residual read by `read_signed_rice(energy)` and `p` the closed-form
prediction. -/
def claimFixedLoop (energy : Nat) (coffset : Int) (order : Nat) :
    Nat → ChannelBuffer → BitReader → Nat → Res (ChannelBuffer × BitReader) Unit
  | _, buf, r, 0 => .ok () (buf, r)
  | i, buf, r, count + 1 =>
    match read_signed_rice energy r with
    | .err e r1 => .err e (buf, r1)
    | .ok residual r1 =>
      match claimPrediction coffset order buf (i : Int) with
      | .error e => .err e (buf, r1)
      | .ok p =>
        match buf.setE (i : Int) (wrap32 (residual + p)) with
        | none => .err .panicIndexOOB (buf, r1)
        | some buf1 => claimFixedLoop energy coffset order (i + 1) buf1 r1 count

/-- `decode_fixed_prediction` with its per-sample loop replaced by the
specification's closed-form description (everything else identical). -/
def decode_fixed_claim (order : Nat) (d : Decoder) : Res Decoder Unit :=
  match read_unsigned_rice ENERGYSIZE d.reader with
  | .err e r1 => .err e { d with reader := r1 }
  | .ok energy r1 =>
    let ch := d.current_channel
    let bs := d.blocksize
    match d.buffers.get? ch with
    | none => .err .panicIndexOOB { d with reader := r1 }
    | some buf0 =>
      let buf := buf0.resize bs
      match d.means.get? ch with
      | none => .err .panicIndexOOB { d with reader := r1 }
      | some macc =>
        let coffset := macc.coffset bs
        match claimFixedLoop energy coffset order 0 buf r1 bs with
        | .err e (buf', r2) =>
          .err e { d with reader := r2, buffers := d.buffers.set ch buf' }
        | .ok _ (buf', r2) =>
          finish_channel_block ch
            { d with reader := r2, buffers := d.buffers.set ch buf' }

/-- The zig-zag sign-unfolding of the specification: `u/2` for even `u`,
`-((u-1)/2) - 1` for odd `u`, mapping `0,1,2,3,4,…` to `0,−1,1,−2,2,…`. -/
def zigzag (u : Nat) : Int :=
  if u % 2 = 0 then ((u / 2 : Nat) : Int) else -(((u - 1) / 2 : Nat) : Int) - 1

/-! ## Concrete inputs and drivers for the concrete scenarios

Byte streams below are well-formed SHN preambles (`ajkg`, version 2) followed
by the bit-packed header fields and commands described at each definition. -/

/-- Drive the sample iterator at most `n` steps, collecting the elements
yielded (the test harness's `collect`). -/
def drainF : Nat → Decoder → List (Except Err Int)
  | 0, _ => []
  | n + 1, d =>
    match ShnSamples.next d with
    | (none, _) => []
    | (some x, d') => x :: drainF n d'

/-- Open a reader and run one `decode_next_block`, keeping only the
value/error (the observable outcome of the first decode). -/
def openAndDecodeE (bytes : List Nat) : Except Err Bool :=
  match ShnReader.new bytes with
  | .error e => .error e
  | .ok (d, _) =>
    match decode_next_block d with
    | .ok b _ => .ok b
    | .err e _ => .error e

/-- Header `file_type=2, channels=1, blocksize=1, maxnlpc=0, nmean=0,
nskip=0`, first command DIFF0, then end of input (the energy read hits
end-of-source). -/
def c2bytes : List Nat := [97, 106, 107, 103, 2, 218, 247, 153, 152]

/-- Header with `maxnlpc=4` (`file_type=2, channels=1, blocksize=1, nmean=0,
nskip=0`), then a QLPC command with `energy=0`, `order=4`, four zero
coefficients and a zero residual: the prediction fold reads `s[i-1-3]` at
`i = 0`, i.e. relative index `-4`, one past the 3-sample history. -/
def c3aBytes : List Nat := [97, 106, 107, 103, 2, 218, 247, 249, 50, 240, 145, 17, 16]

/-- Header with `blocksize=0` and `nmean=1` (`file_type=2, channels=1,
maxnlpc=0, nskip=0`), then a ZERO command: the per-block mean divides by the
zero block size. -/
def c3bBytes : List Nat := [97, 106, 107, 103, 2, 218, 243, 55, 146, 0]

/-- Header with `blocksize=0` (`file_type=2, channels=1, maxnlpc=0, nmean=0,
nskip=0`), first command QUIT. -/
def c4aBytes : List Nat := [97, 106, 107, 103, 2, 218, 243, 51, 40]

/-- Valid header (`blocksize=1`), then a BLOCKSIZE command whose `ulong`
payload is `0`. -/
def c4bBytes : List Nat := [97, 106, 107, 103, 2, 218, 247, 153, 149, 144]

/-- Header `channels=2, blocksize=1` (`file_type=2, maxnlpc=0, nmean=0,
nskip=0`), then ZERO, ZERO, QUIT: two block-producing commands, one completed
production pass. -/
def c9bytes : List Nat := [97, 106, 107, 103, 2, 219, 107, 204, 201, 8, 128]

/-- Header `channels=0` (`file_type=2, blocksize=1, maxnlpc=0, nmean=0,
nskip=0`), first command DIFF0 (never consumed). -/
def c10bytes : List Nat := [97, 106, 107, 103, 2, 218, 111, 51, 48]

/-- The spec's signed-Rice scenario input `0xB4`: read three successive
`read_signed_rice(0)` values. -/
def readSigned3 (k : Nat) (s : BitReader) : Option (Int × Int × Int) :=
  match read_signed_rice k s with
  | .err _ _ => none
  | .ok a s1 =>
    match read_signed_rice k s1 with
    | .err _ _ => none
    | .ok b s2 =>
      match read_signed_rice k s2 with
      | .err _ _ => none
      | .ok c _ => some (a, b, c)

/-- Open `c2bytes` and call the sample iterator twice: the pair of yielded
elements. -/
def c2run : Option (Option (Except Err Int) × Option (Except Err Int)) :=
  match ShnReader.new c2bytes with
  | .error _ => none
  | .ok (d, _) =>
    let r1 := ShnSamples.next d
    let r2 := ShnSamples.next r1.2
    some (r1.1, r2.1)

/-- Open `c9bytes` and drain the sample iterator. -/
def c9run : List (Except Err Int) :=
  match ShnReader.new c9bytes with
  | .error _ => []
  | .ok (d, _) => drainF 10 d

/-- A small concrete decoder state (one channel, block size 1) used to
instantiate hypothesis-bearing theorems. -/
def c1WitnessD : Decoder :=
  { reader := BitReader.new [0x88]
    channels := 1
    blocksize := 1
    maxnlpc := 0
    nmean := 0
    version := 2
    bitshift := 0
    buffers := [ChannelBuffer.new 1]
    means := [MeanAccumulator.new 0]
    current_channel := 0
    finished := false
    output_buf := []
    output_pos := 0
    pending_cmd := none }

/-- A concrete channel buffer holding the block `[10, 20, 30]` (block size 3,
zero history). -/
def c7Buf : ChannelBuffer := ⟨[0, 0, 0, 10, 20, 30], 3⟩

/-- A concrete decoder state holding `c7Buf` as its single channel. -/
def c7D : Decoder :=
  { reader := BitReader.new []
    channels := 1
    blocksize := 3
    maxnlpc := 0
    nmean := 0
    version := 2
    bitshift := 0
    buffers := [c7Buf]
    means := [MeanAccumulator.new 0]
    current_channel := 0
    finished := false
    output_buf := []
    output_pos := 0
    pending_cmd := none }

/-- The decoder state after finalizing `c7D`'s block. -/
def c7D' : Decoder :=
  match finish_channel_block 0 c7D with
  | .ok _ x => x
  | .err _ x => x

/-- A concrete two-channel decoder state (block size 1, blocks `[7]` and
`[9]`) used to instantiate the interleaving theorem. -/
def c8D : Decoder :=
  { reader := BitReader.new []
    channels := 2
    blocksize := 1
    maxnlpc := 0
    nmean := 0
    version := 2
    bitshift := 0
    buffers := [⟨[0, 0, 0, 7], 1⟩, ⟨[0, 0, 0, 9], 1⟩]
    means := [MeanAccumulator.new 0, MeanAccumulator.new 0]
    current_channel := 0
    finished := false
    output_buf := []
    output_pos := 0
    pending_cmd := none }

/-- The decoder state after interleaving `c8D`. -/
def c8D' : Decoder :=
  match interleave_output c8D with
  | .ok _ x => x
  | .err _ x => x

/-- A finished decoder with exhausted output (the state right after QUIT). -/
def c2FinD : Decoder :=
  { c8D with channels := 1, finished := true }

/-- The decoder obtained by opening `c9bytes`. -/
def c9D : Decoder :=
  match ShnReader.new c9bytes with
  | .ok (d, _) => d
  | .error _ => c8D

/-- The decoder after the first production pass of `c9D`. -/
def c9D1 : Decoder :=
  match decode_next_block c9D with
  | .ok _ x => x
  | .err _ x => x

/-- The decoder obtained by opening `c10bytes` (`channels = 0`). -/
def c10D : Decoder :=
  match ShnReader.new c10bytes with
  | .ok (d, _) => d
  | .error _ => c8D

/-! ## Arithmetic lemmas about the wrapping operations -/

theorem wrap32_add_right (a b : Int) : wrap32 (a + wrap32 b) = wrap32 (a + b) := by
  unfold wrap32; omega

theorem wrap32_add_left (a b : Int) : wrap32 (wrap32 a + b) = wrap32 (a + b) := by
  unfold wrap32; omega

theorem wrap32_eq_of_range (x : Int) (h1 : -2147483648 ≤ x) (h2 : x < 2147483648) :
    wrap32 x = x := by
  unfold wrap32; omega

theorem wrap64_eq_of_range (x : Int) (h1 : -9223372036854775808 ≤ x)
    (h2 : x < 9223372036854775808) : wrap64 x = x := by
  unfold wrap64; omega

/-- The sign-unfolding expression of `read_signed_rice` equals the
specification's zig-zag map. -/
theorem signed_rice_value_eq_zigzag (u : Nat) :
    (if u &&& 1 = 0 then ((u >>> 1 : Nat) : Int) else -((u >>> 1 : Nat) : Int) - 1) =
      zigzag u := by
  rw [Nat.and_one_is_mod]
  have hs : u >>> 1 = u / 2 := by simpa using Nat.shiftRight_eq_div_pow u 1
  rw [hs]
  unfold zigzag
  by_cases h : u % 2 = 0
  · simp [h]
  · have h2 : (u - 1) / 2 = u / 2 := by omega
    simp [h, h2]

/-- C5: `read_signed_rice(k)` reads `u = read_unsigned_rice(k+1)` and
sign-unfolds it with the zig-zag map (`u/2` for even `u`, `-((u-1)/2) - 1` for
odd `u`); the zig-zag map is a bijection from the naturals onto the integers
in the order `0, −1, 1, −2, 2, …`; and on the single input byte `0xB4` three
successive `read_signed_rice(0)` calls yield `0, −1, 1`. -/
theorem c5_signed_rice_zigzag :
    (∀ (k : Nat) (s : BitReader),
      read_signed_rice k s =
        match read_unsigned_rice (k + 1) s with
        | .ok u s' => .ok (zigzag u) s'
        | .err e s' => .err e s') ∧
    Function.Bijective zigzag ∧
    readSigned3 0 (BitReader.new [0xB4]) = some (0, -1, 1) := by
  refine ⟨?_, ⟨?_, ?_⟩, rfl⟩
  · intro k s
    unfold read_signed_rice
    cases h : read_unsigned_rice (k + 1) s with
    | err e s1 => rfl
    | ok u s1 =>
      show Res.ok (if u &&& 1 = 0 then ((u >>> 1 : Nat) : Int) else -((u >>> 1 : Nat) : Int) - 1) s1
        = Res.ok (zigzag u) s1
      rw [signed_rice_value_eq_zigzag]
  · intro a b hab
    simp only [zigzag] at hab
    split_ifs at hab <;> omega
  · intro n
    rcases le_or_lt 0 n with h | h
    · refine ⟨2 * n.toNat, ?_⟩
      simp only [zigzag]
      split_ifs with h2 <;> omega
    · refine ⟨2 * (-n - 1).toNat + 1, ?_⟩
      simp only [zigzag]
      split_ifs with h2 <;> omega

/-- C3: the decoder panics on hostile inputs.  A QLPC block of order 4
(permitted because the header declares `maxnlpc = 4`) indexes the channel
buffer at relative index `-4`, one position before the 3-sample history —
an out-of-bounds slice access; and a header block size of 0 reaches the
per-block mean computation of `finish_channel_block`, which divides by the
block size. -/
theorem c3_panic_paths :
    openAndDecodeE c3aBytes = .error .panicIndexOOB ∧
    openAndDecodeE c3bBytes = .error .panicDivByZero := ⟨rfl, rfl⟩

/-- C4: the header `blocksize` field is not validated at parse time — opening
`c4aBytes` (a version-2 header whose blocksize field decodes to 0) succeeds
and yields a decoder with `blocksize = 0` instead of failing with
`InvalidBlockSize`; the bound is enforced only by the mid-stream BLOCKSIZE
command (second conjunct, where a BLOCKSIZE payload of 0 is rejected). -/
theorem c4_header_blocksize_unchecked :
    (ShnReader.new c4aBytes).toOption.map (fun p => p.1.blocksize) = some 0 ∧
    openAndDecodeE c4bBytes = .error (.invalidBlockSize 0) := ⟨rfl, rfl⟩

/-- C2 counterexample: on `c2bytes` (a well-formed header whose command
stream is truncated) the first call to the sample iterator returns an I/O
error element, and the call after it returns another I/O error element — not
"no element" as the claim requires, because `decode_next_block` does not set
`finished` on the error path. -/
theorem c2_counterexample :
    c2run = some (some (.error .io), some (.error .io)) := rfl

/-- C9 counterexample: on `c9bytes` (`blocksize = 1`, `channels = 2`, two
block-producing ZERO commands and then QUIT) the decoder emits 2 samples,
while the claim's formula `blocksize · channels · #block-commands` predicts
`1 · 2 · 2 = 4`. -/
theorem c9_counterexample :
    c9run = [.ok 0, .ok 0] ∧ c9run.length ≠ 1 * 2 * 2 := ⟨rfl, by decide⟩

/-! ## C1: fixed-prediction blocks match the specification formulas -/

theorem fixedLoop_claim_zero (energy : Nat) (coffset : Int) :
    ∀ (count i : Nat) (buf : ChannelBuffer) (r : BitReader),
      fixedLoop energy coffset 0 [0, 0, 0] i buf r count =
        claimFixedLoop energy coffset 0 i buf r count := by
  intro count
  induction count with
  | zero => intro i buf r; rfl
  | succ c ih =>
    intro i buf r
    simp only [fixedLoop, claimFixedLoop, claimPrediction]
    cases hrs : read_signed_rice energy r with
    | err e r1 => rfl
    | ok residual r1 =>
      norm_num
      cases hset : buf.setE (i : Int) (wrap32 (residual + coffset)) with
      | none => rfl
      | some buf1 => exact ih (i + 1) buf1 r1

theorem fixedLoop_claim_one (energy : Nat) (coffset : Int) :
    ∀ (count i : Nat) (buf : ChannelBuffer) (r : BitReader),
      fixedLoop energy coffset 1 [1, 0, 0] i buf r count =
        claimFixedLoop energy coffset 1 i buf r count := by
  intro count
  induction count with
  | zero => intro i buf r; rfl
  | succ c ih =>
    intro i buf r
    simp only [fixedLoop, claimFixedLoop, claimPrediction]
    cases hrs : read_signed_rice energy r with
    | err e r1 => rfl
    | ok residual r1 =>
      norm_num
      simp only [fixedPredLoop, Nat.cast_zero, sub_zero]
      cases hg : buf.getE ((i : Int) - 1) with
      | none => rfl
      | some s1 =>
        dsimp only
        have hv : wrap32 (residual + wrap32 (0 + wrap32 (1 * s1))) = wrap32 (residual + s1) := by
          simp only [wrap32]; omega
        rw [hv]
        cases hset : buf.setE (i : Int) (wrap32 (residual + s1)) with
        | none => rfl
        | some buf1 => exact ih (i + 1) buf1 r1

theorem fixedLoop_claim_two (energy : Nat) (coffset : Int) :
    ∀ (count i : Nat) (buf : ChannelBuffer) (r : BitReader),
      fixedLoop energy coffset 2 [2, -1, 0] i buf r count =
        claimFixedLoop energy coffset 2 i buf r count := by
  intro count
  induction count with
  | zero => intro i buf r; rfl
  | succ c ih =>
    intro i buf r
    simp only [fixedLoop, claimFixedLoop, claimPrediction]
    cases hrs : read_signed_rice energy r with
    | err e r1 => rfl
    | ok residual r1 =>
      norm_num
      simp only [fixedPredLoop, Nat.cast_zero, Nat.cast_one, sub_zero, zero_add, Nat.cast_ofNat]
      have e2 : (i : Int) - 1 - 1 = (i : Int) - 2 := by ring
      rw [e2]
      cases hg1 : buf.getE ((i : Int) - 1) with
      | none => rfl
      | some s1 =>
        dsimp only
        cases hg2 : buf.getE ((i : Int) - 2) with
        | none => rfl
        | some s2 =>
          dsimp only
          have hv : wrap32 (residual + wrap32 (wrap32 (wrap32 (2 * s1)) + wrap32 (-1 * s2)))
              = wrap32 (residual + (2 * s1 - s2)) := by
            simp only [wrap32]; omega
          rw [hv]
          cases hset : buf.setE (i : Int) (wrap32 (residual + (2 * s1 - s2))) with
          | none => rfl
          | some buf1 => exact ih (i + 1) buf1 r1

theorem fixedLoop_claim_three (energy : Nat) (coffset : Int) :
    ∀ (count i : Nat) (buf : ChannelBuffer) (r : BitReader),
      fixedLoop energy coffset 3 [3, -3, 1] i buf r count =
        claimFixedLoop energy coffset 3 i buf r count := by
  intro count
  induction count with
  | zero => intro i buf r; rfl
  | succ c ih =>
    intro i buf r
    simp only [fixedLoop, claimFixedLoop, claimPrediction]
    cases hrs : read_signed_rice energy r with
    | err e r1 => rfl
    | ok residual r1 =>
      norm_num
      simp only [fixedPredLoop, Nat.cast_zero, Nat.cast_one, sub_zero, zero_add, Nat.cast_ofNat]
      have e2 : (i : Int) - 1 - 1 = (i : Int) - 2 := by ring
      have e3 : (i : Int) - ((1 + 1 : Nat) : Int) - 1 = (i : Int) - 3 := by push_cast; ring
      rw [e2, e3]
      cases hg1 : buf.getE ((i : Int) - 1) with
      | none => rfl
      | some s1 =>
        dsimp only
        cases hg2 : buf.getE ((i : Int) - 2) with
        | none => rfl
        | some s2 =>
          dsimp only
          cases hg3 : buf.getE ((i : Int) - 3) with
          | none => rfl
          | some s3 =>
            dsimp only
            have hv : wrap32 (residual +
                  wrap32 (wrap32 (wrap32 (wrap32 (3 * s1)) + wrap32 (-3 * s2)) + wrap32 (1 * s3)))
                = wrap32 (residual + (3 * s1 - 3 * s2 + s3)) := by
              simp only [wrap32]; omega
            rw [hv]
            cases hset : buf.setE (i : Int) (wrap32 (residual + (3 * s1 - 3 * s2 + s3))) with
            | none => rfl
            | some buf1 => exact ih (i + 1) buf1 r1

/-- C1: for every DIFF-k block (k ≤ 3), `decode_fixed_prediction` computes
exactly what the specification prescribes: each sample is
`wrap32(residual + p)` with the residual read by `read_signed_rice(energy)`
and `p` the closed-form prediction (`coffset` for k=0, `s[i-1]` for k=1,
`2·s[i-1] − s[i-2]` for k=2, `3·s[i-1] − 3·s[i-2] + s[i-3]` for k=3, negative
indices reading the history prefix), the final addition wrapping in 32-bit
signed arithmetic. -/
theorem c1_fixed_prediction (d : Decoder) (order : Nat) (h : order ≤ 3) :
    decode_fixed_prediction order d = decode_fixed_claim order d := by
  have key : ∀ (energy : Nat) (coffset : Int) (count i : Nat) (buf : ChannelBuffer)
      (r : BitReader),
      fixedLoop energy coffset order (FIXED_COEFFS.getD order []) i buf r count =
        claimFixedLoop energy coffset order i buf r count := by
    interval_cases order
    · exact fixedLoop_claim_zero
    · exact fixedLoop_claim_one
    · exact fixedLoop_claim_two
    · exact fixedLoop_claim_three
  simp only [decode_fixed_prediction, decode_fixed_claim]
  cases h1 : read_unsigned_rice ENERGYSIZE d.reader with
  | err e r1 => rfl
  | ok energy r1 =>
    cases h2 : d.buffers.get? d.current_channel with
    | none => rfl
    | some buf0 =>
      cases h3 : d.means.get? d.current_channel with
      | none => rfl
      | some macc =>
        dsimp only
        rw [key]

/-- Witness for C1 at a concrete decoder state and order 1. -/
theorem c1_witness :
    (1 : Nat) ≤ 3 ∧ decode_fixed_prediction 1 c1WitnessD = decode_fixed_claim 1 c1WitnessD :=
  ⟨by decide, c1_fixed_prediction c1WitnessD 1 (by decide)⟩

/-! ## C7: the history-prefix invariant -/

theorem physSet_spec {b : ChannelBuffer} {n : Nat} {v : Int} {b' : ChannelBuffer}
    (h : physSet b n v = some b') :
    n < b.data.length ∧ b' = { b with data := b.data.set n v } := by
  unfold physSet at h
  split at h
  · exact ⟨by assumption, by injection h with h'; exact h'.symm⟩
  · cases h

theorem physGet_spec {b : ChannelBuffer} {n : Nat} {v : Int}
    (h : physGet b n = some v) : b.data.get? n = some v := h

theorem getE_eq_get? (b : ChannelBuffer) (i : Int) (h : 0 ≤ 3 + i) :
    b.getE i = b.data.get? (3 + i).toNat := by
  unfold ChannelBuffer.getE NWRAP
  by_cases hb : (3 + i).toNat < b.data.length
  · rw [if_pos ⟨by exact_mod_cast h, by exact_mod_cast hb⟩, List.get?_eq_getElem?,
      List.getElem?_eq_getElem (by exact_mod_cast hb),
      List.getD_eq_getElem b.data 0 (by exact_mod_cast hb)]
    norm_num
  · rw [if_neg (by push_neg; intro; omega), eq_comm, List.get?_eq_none]
    omega

theorem wrap_around_spec (b b' : ChannelBuffer) (hw : b.wrap_aroundE = .ok b') :
    b'.blocksize = b.blocksize ∧ b'.data.length = b.data.length ∧
    ∀ j : Nat, 1 ≤ j → j ≤ 3 →
      b'.getE (-(j : Int)) = b.getE ((b.blocksize : Int) - (j : Int)) := by
  unfold ChannelBuffer.wrap_aroundE NWRAP at hw
  simp only [wrapLoop] at hw
  cases hg0 : physGet b (b.blocksize + 0) with
  | none => rw [hg0] at hw; cases hw
  | some v0 =>
  rw [hg0] at hw
  dsimp only at hw
  cases hs0 : physSet b 0 v0 with
  | none => rw [hs0] at hw; cases hw
  | some b1 =>
  rw [hs0] at hw
  dsimp only at hw
  cases hg1 : physGet b1 (b1.blocksize + (0 + 1)) with
  | none => rw [hg1] at hw; cases hw
  | some v1 =>
  rw [hg1] at hw
  dsimp only at hw
  cases hs1 : physSet b1 (0 + 1) v1 with
  | none => rw [hs1] at hw; cases hw
  | some b2 =>
  rw [hs1] at hw
  dsimp only at hw
  cases hg2 : physGet b2 (b2.blocksize + (0 + 1 + 1)) with
  | none => rw [hg2] at hw; cases hw
  | some v2 =>
  rw [hg2] at hw
  dsimp only at hw
  cases hs2 : physSet b2 (0 + 1 + 1) v2 with
  | none => rw [hs2] at hw; cases hw
  | some b3 =>
  rw [hs2] at hw
  dsimp only at hw
  injection hw with hw'
  subst hw'
  obtain ⟨hl0, hb1⟩ := physSet_spec hs0
  obtain ⟨hl1, hb2⟩ := physSet_spec hs1
  obtain ⟨hl2, hb3⟩ := physSet_spec hs2
  subst hb1; subst hb2; subst hb3
  simp only [List.length_set] at hl1 hl2
  refine ⟨rfl, by simp, ?_⟩
  intro j hj1 hj3
  norm_num at hg1 hs1 hg2 hs2 hl1 hl2
  have hlen2 : b.blocksize + 2 < b.data.length := by
    have := physGet_spec hg2
    rw [List.get?_eq_getElem?] at this
    have := List.getElem?_eq_some_iff.mp this
    obtain ⟨hlt, _⟩ := this
    simpa using hlt
  have hv2 : b.data.get? (b.blocksize + 2) = some v2 := by
    have h2 := physGet_spec hg2
    rw [List.get?_eq_getElem?] at h2 ⊢
    rw [List.getElem?_set_ne (by omega), List.getElem?_set_ne (by omega)] at h2
    exact h2
  have hv1 : b.data.get? (b.blocksize + 1) = some v1 := by
    have h1 := physGet_spec hg1
    rw [List.get?_eq_getElem?] at h1 ⊢
    rw [List.getElem?_set_ne (by omega)] at h1
    exact h1
  have hv0 : b.data.get? (b.blocksize + 0) = some v0 := physGet_spec hg0
  have hlen1 : b.blocksize + 1 < b.data.length := by
    rw [List.get?_eq_getElem?] at hv1
    obtain ⟨hlt, _⟩ := List.getElem?_eq_some_iff.mp hv1
    exact hlt
  have hlen0 : b.blocksize + 0 < b.data.length := by
    rw [List.get?_eq_getElem?] at hv0
    obtain ⟨hlt, _⟩ := List.getElem?_eq_some_iff.mp hv0
    exact hlt
  interval_cases j
  · -- j = 1 : history slot -1 = block position bs - 1  (physical bs + 2)
    rw [getE_eq_get? _ _ (by norm_num), getE_eq_get? _ _ (by omega)]
    have t1 : ((3 : Int) + -((1 : Nat) : Int)).toNat = 2 := by omega
    have t2 : ((3 : Int) + (((b.blocksize : Nat) : Int) - ((1 : Nat) : Int))).toNat
        = b.blocksize + 2 := by omega
    rw [t1, t2, hv2]
    show (((b.data.set 0 v0).set 1 v1).set 2 v2).get? 2 = some v2
    rw [List.get?_eq_getElem?, List.getElem?_set_self', List.getElem?_set_ne (by omega),
      List.getElem?_set_ne (by omega), List.getElem?_eq_getElem (by simpa using hl2)]
    rfl
  · -- j = 2
    rw [getE_eq_get? _ _ (by norm_num), getE_eq_get? _ _ (by omega)]
    have t1 : ((3 : Int) + -((2 : Nat) : Int)).toNat = 1 := by omega
    have t2 : ((3 : Int) + (((b.blocksize : Nat) : Int) - ((2 : Nat) : Int))).toNat
        = b.blocksize + 1 := by omega
    rw [t1, t2, hv1]
    show (((b.data.set 0 v0).set 1 v1).set 2 v2).get? 1 = some v1
    rw [List.get?_eq_getElem?, List.getElem?_set_ne (by omega), List.getElem?_set_self',
      List.getElem?_set_ne (by omega), List.getElem?_eq_getElem (by simpa using hl1)]
    rfl
  · -- j = 3
    rw [getE_eq_get? _ _ (by norm_num), getE_eq_get? _ _ (by omega)]
    have t1 : ((3 : Int) + -((3 : Nat) : Int)).toNat = 0 := by omega
    have t2 : ((3 : Int) + (((b.blocksize : Nat) : Int) - ((3 : Nat) : Int))).toNat
        = b.blocksize + 0 := by omega
    rw [t1, t2, hv0]
    show (((b.data.set 0 v0).set 1 v1).set 2 v2).get? 0 = some v0
    rw [List.get?_eq_getElem?, List.getElem?_set_ne (by omega), List.getElem?_set_ne (by omega),
      List.getElem?_set_self', List.getElem?_eq_getElem (by simpa using hl0)]
    rfl

theorem finish_ok_wrap (ch : Nat) (d d' : Decoder) (buf bufS : ChannelBuffer)
    (hf : finish_channel_block ch d = .ok () d')
    (hb : d.buffers.get? ch = some buf)
    (hs : (if d.bitshift > 0 then shiftLoop d.bitshift 0 buf d.blocksize else .ok buf)
      = .ok bufS) :
    ∃ buf2, bufS.wrap_aroundE = .ok buf2 ∧ d'.buffers.get? ch = some buf2 := by
  unfold finish_channel_block at hf
  rw [hb] at hf
  dsimp only at hf
  rw [hs] at hf
  dsimp only at hf
  cases hm : d.means.get? ch with
  | none => rw [hm] at hf; cases hf
  | some macc =>
    rw [hm] at hf
    dsimp only at hf
    split at hf
    · cases hf
    · cases hw : bufS.wrap_aroundE with
      | error e => rw [hw] at hf; cases hf
      | ok buf2 =>
        rw [hw] at hf
        dsimp only at hf
        split at hf
        · cases hf
        · injection hf with h1 h2
          refine ⟨buf2, rfl, ?_⟩
          rw [← h2]
          show (d.buffers.set ch buf2).get? ch = some buf2
          have hch : ch < d.buffers.length := by
            rw [List.get?_eq_getElem?] at hb
            obtain ⟨hlt, _⟩ := List.getElem?_eq_some_iff.mp hb
            exact hlt
          rw [List.get?_eq_getElem?, List.getElem?_set]
          simp [hch]

/-- C7: initially a channel's history prefix (relative indices `-3, -2, -1`)
is all zero, and after `finish_channel_block` completes, the history prefix
equals the just-finished block's contents at relative positions `B-3, B-2,
B-1` as they stood after the bitshift stage (`bufS`) — for `B ≥ 3` these are
the last three samples of the block. -/
theorem c7_history_invariant :
    (∀ (bs j : Nat), 1 ≤ j → j ≤ 3 → (ChannelBuffer.new bs).getE (-(j : Int)) = some 0) ∧
    (∀ (ch : Nat) (d d' : Decoder) (buf bufS : ChannelBuffer),
      finish_channel_block ch d = .ok () d' →
      d.buffers.get? ch = some buf →
      (if d.bitshift > 0 then shiftLoop d.bitshift 0 buf d.blocksize else .ok buf)
        = .ok bufS →
      ∀ j : Nat, 1 ≤ j → j ≤ 3 →
        ∃ bufW, d'.buffers.get? ch = some bufW ∧
          bufW.getE (-(j : Int)) = bufS.getE ((bufS.blocksize : Int) - (j : Int))) := by
  constructor
  · intro bs j hj1 hj3
    rw [getE_eq_get? _ _ (by omega)]
    unfold ChannelBuffer.new NWRAP
    rw [List.get?_eq_getElem?]
    show (List.replicate (3 + bs) (0 : Int))[((3 : Int) + -(j : Int)).toNat]? = some 0
    rw [List.getElem?_replicate, if_pos (by omega)]
  · intro ch d d' buf bufS hf hb hs j hj1 hj3
    obtain ⟨buf2, hw, hb2⟩ := finish_ok_wrap ch d d' buf bufS hf hb hs
    obtain ⟨hbs, hlen, hget⟩ := wrap_around_spec bufS buf2 hw
    exact ⟨buf2, hb2, hget j hj1 hj3⟩


/-- Witness for C7 at a concrete one-channel decoder (block `[10,20,30]`). -/
theorem c7_witness :
    ∃ bufW, c7D'.buffers.get? 0 = some bufW ∧
      bufW.getE (-((1 : Nat) : Int)) = c7Buf.getE ((c7Buf.blocksize : Int) - ((1 : Nat) : Int)) :=
  c7_history_invariant.2 0 c7D c7D' c7Buf c7Buf (by rfl) (by rfl) (by rfl) 1 (by decide) (by decide)

/-! ## C8: canonical interleaving -/

theorem blockSamplesE_length {b : ChannelBuffer} {row : List Int}
    (h : blockSamplesE b = .ok row) : row.length = b.blocksize := by
  unfold blockSamplesE NWRAP at h
  split at h
  · injection h with h'
    subst h'
    simp only [List.length_take, List.length_drop]
    omega
  · cases h

theorem interleaveRow_spec (buffers : List ChannelBuffer) (i : Nat) :
    ∀ (count ch : Nat) (l : List Int),
      interleaveRow buffers i ch count = .ok l →
      l.length = count ∧
        ∀ k, k < count → l.get? k = (interleaveCell buffers (ch + k) i).toOption := by
  intro count
  induction count with
  | zero =>
    intro ch l h
    injection h with h'
    subst h'
    exact ⟨rfl, by omega⟩
  | succ c ih =>
    intro ch l h
    unfold interleaveRow at h
    cases hc : interleaveCell buffers ch i with
    | error e => rw [hc] at h; cases h
    | ok v =>
      rw [hc] at h
      dsimp only at h
      cases hr : interleaveRow buffers i (ch + 1) c with
      | error e => rw [hr] at h; cases h
      | ok rest =>
        rw [hr] at h
        dsimp only at h
        injection h with h'
        subst h'
        obtain ⟨hlen, hmap⟩ := ih (ch + 1) rest hr
        refine ⟨by simp [hlen], ?_⟩
        intro k hk
        cases k with
        | zero => simp [hc, Except.toOption]
        | succ k' =>
          have := hmap k' (by omega)
          have harith : ch + 1 + k' = ch + (k' + 1) := by omega
          rw [harith] at this
          simpa using this

theorem interleaveAll_spec (buffers : List ChannelBuffer) (nchan : Nat) :
    ∀ (count i0 : Nat) (out : List Int),
      interleaveAll buffers nchan i0 count = .ok out →
      out.length = count * nchan ∧
        ∀ di ch, di < count → ch < nchan →
          out.get? (di * nchan + ch) = (interleaveCell buffers ch (i0 + di)).toOption := by
  intro count
  induction count with
  | zero =>
    intro i0 out h
    injection h with h'
    subst h'
    exact ⟨by simp, by omega⟩
  | succ c ih =>
    intro i0 out h
    unfold interleaveAll at h
    cases hr : interleaveRow buffers i0 0 nchan with
    | error e => rw [hr] at h; cases h
    | ok row =>
      rw [hr] at h
      dsimp only at h
      cases ha : interleaveAll buffers nchan (i0 + 1) c with
      | error e => rw [ha] at h; cases h
      | ok rest =>
        rw [ha] at h
        dsimp only at h
        injection h with h'
        subst h'
        obtain ⟨hrowlen, hrowmap⟩ := interleaveRow_spec buffers i0 nchan 0 row hr
        obtain ⟨hrestlen, hrestmap⟩ := ih (i0 + 1) rest ha
        constructor
        · simp only [List.length_append, hrowlen, hrestlen]
          ring
        · intro di ch hdi hch
          cases di with
          | zero =>
            rw [List.get?_append (by simp only [hrowlen]; omega)]
            have := hrowmap ch hch
            simpa using this
          | succ k =>
            rw [List.get?_append_right (by simp only [hrowlen]; push_cast; nlinarith)]
            have harith : (k + 1) * nchan + ch - row.length = k * nchan + ch := by
              simp only [hrowlen]; ring_nf; omega
            rw [harith]
            have := hrestmap k ch (by omega) hch
            have harith2 : i0 + 1 + k = i0 + (k + 1) := by omega
            rw [harith2] at this
            exact this

theorem interleave_output_spec (d d' : Decoder)
    (hinv : ∀ b ∈ d.buffers, b.blocksize = d.blocksize)
    (hio : interleave_output d = .ok () d') :
    d'.output_buf.length = d.blocksize * d.channels ∧ d'.output_pos = 0 ∧
      d'.blocksize = d.blocksize ∧ d'.channels = d.channels := by
  unfold interleave_output at hio
  dsimp only at hio
  by_cases h1 : d.channels = 1
  case pos =>
    rw [if_pos h1] at hio
    cases hb : d.buffers.get? 0 with
    | none => rw [hb] at hio; cases hio
    | some buf0 =>
      rw [hb] at hio
      dsimp only at hio
      cases hbs : blockSamplesE buf0 with
      | error e => rw [hbs] at hio; cases hio
      | ok samples =>
        rw [hbs] at hio
        dsimp only at hio
        injection hio with h1' h2'
        rw [← h2']
        have hlen := blockSamplesE_length hbs
        have hmem : buf0 ∈ d.buffers := List.get?_mem hb
        have := hinv buf0 hmem
        refine ⟨?_, rfl, rfl, rfl⟩
        simp only [hlen, this, h1]
        ring
  case neg =>
    rw [if_neg h1] at hio
    cases hia : interleaveAll d.buffers d.channels 0 d.blocksize with
    | error e => rw [hia] at hio; cases hio
    | ok out =>
      rw [hia] at hio
      dsimp only at hio
      injection hio with h1' h2'
      rw [← h2']
      obtain ⟨hlen, _⟩ := interleaveAll_spec d.buffers d.channels d.blocksize 0 out hia
      exact ⟨hlen, rfl, rfl, rfl⟩

/-- C8: after a successful `interleave_output`, the output buffer holds
exactly `blocksize * channels` samples in canonical interleaved order: the
sample at output position `i * channels + ch` is channel `ch`'s block sample
at index `i` (the mono case reducing to a copy of the single channel's
block).  The hypothesis that every channel buffer's block size equals the
decoder's is the invariant the decoder maintains by construction (buffers are
created with the header block size and resized on every BLOCKSIZE command and
block decode). -/
theorem c8_interleave_canonical (d d' : Decoder)
    (hinv : ∀ b ∈ d.buffers, b.blocksize = d.blocksize)
    (hio : interleave_output d = .ok () d') :
    d'.output_buf.length = d.blocksize * d.channels ∧
    ∀ (i ch : Nat) (buf : ChannelBuffer) (row : List Int),
      i < d.blocksize → ch < d.channels →
      d.buffers.get? ch = some buf → blockSamplesE buf = .ok row →
      d'.output_buf.get? (i * d.channels + ch) = row.get? i := by
  refine ⟨(interleave_output_spec d d' hinv hio).1, ?_⟩
  intro i ch buf row hi hch hbuf hrow
  unfold interleave_output at hio
  dsimp only at hio
  by_cases h1 : d.channels = 1
  case pos =>
    rw [if_pos h1] at hio
    have hch0 : ch = 0 := by omega
    subst hch0
    rw [hbuf] at hio
    dsimp only at hio
    rw [hrow] at hio
    dsimp only at hio
    injection hio with h1' h2'
    rw [← h2']
    have : i * d.channels + 0 = i := by rw [h1]; ring
    rw [this]
  case neg =>
    rw [if_neg h1] at hio
    cases hia : interleaveAll d.buffers d.channels 0 d.blocksize with
    | error e => rw [hia] at hio; cases hio
    | ok out =>
      rw [hia] at hio
      dsimp only at hio
      injection hio with h1' h2'
      rw [← h2']
      obtain ⟨_, hmap⟩ := interleaveAll_spec d.buffers d.channels d.blocksize 0 out hia
      have hcell := hmap i ch hi hch
      show out.get? (i * d.channels + ch) = row.get? i
      rw [hcell]
      unfold interleaveCell
      rw [hbuf]
      dsimp only
      rw [hrow]
      dsimp only
      have hrl : row.length = d.blocksize := by
        rw [blockSamplesE_length hrow]
        exact hinv buf (List.get?_mem hbuf)
      have hsome : ∃ v, row.get? (0 + i) = some v := by
        have : 0 + i < row.length := by omega
        rw [List.get?_eq_getElem?]
        exact ⟨row[0 + i], List.getElem?_eq_getElem (by omega)⟩
      obtain ⟨v, hv⟩ := hsome
      rw [hv]
      simp only [Except.toOption]
      rw [← hv]
      congr 1
      omega

/-- Witness for C8: position `0 * channels + 1` of the interleaved output of
`c8D` is channel 1's block sample `9`. -/
theorem c8_witness :
    c8D'.output_buf.get? (0 * c8D.channels + 1) = [(9 : Int)].get? 0 :=
  (c8_interleave_canonical c8D c8D' (by decide) rfl).2 0 1 ⟨[0, 0, 0, 9], 1⟩ [9]
    (by decide) (by decide) rfl rfl

/-! ## Decoder-state preservation lemmas and C2/C9/C10 -/

theorem resize_blocksize (b : ChannelBuffer) (n : Nat) : (b.resize n).blocksize = n := by
  unfold ChannelBuffer.resize
  split
  · rfl
  · omega

theorem setE_pres {b : ChannelBuffer} {i v : Int} {b' : ChannelBuffer}
    (h : b.setE i v = some b') :
    b'.blocksize = b.blocksize ∧ b'.data.length = b.data.length := by
  unfold ChannelBuffer.setE at h
  dsimp only at h
  split at h
  · injection h with h'
    subst h'
    exact ⟨rfl, by simp⟩
  · cases h

theorem zeroLoop_pres : ∀ (count i : Nat) (buf buf' : ChannelBuffer),
    zeroLoop i buf count = .ok buf' → buf'.blocksize = buf.blocksize := by
  intro count
  induction count with
  | zero => intro i buf buf' h; injection h with h'; rw [h']
  | succ c ih =>
    intro i buf buf' h
    unfold zeroLoop at h
    cases hs : buf.setE (i : Int) 0 with
    | none => rw [hs] at h; cases h
    | some buf1 =>
      rw [hs] at h
      have := ih (i + 1) buf1 buf' h
      rw [this, (setE_pres hs).1]

theorem shiftLoop_pres : ∀ (count : Nat) (k i : Nat) (buf buf' : ChannelBuffer),
    shiftLoop k i buf count = .ok buf' → buf'.blocksize = buf.blocksize := by
  intro count
  induction count with
  | zero => intro k i buf buf' h; injection h with h'; rw [h']
  | succ c ih =>
    intro k i buf buf' h
    unfold shiftLoop at h
    cases hg : buf.getE (i : Int) with
    | none => rw [hg] at h; cases h
    | some v =>
      rw [hg] at h
      dsimp only at h
      cases hs : buf.setE (i : Int) (shlI32 v k) with
      | none => rw [hs] at h; cases h
      | some buf1 =>
        rw [hs] at h
        have := ih k (i + 1) buf1 buf' h
        rw [this, (setE_pres hs).1]

theorem fixedLoop_pres : ∀ (count : Nat) (energy : Nat) (coffset : Int) (order : Nat)
    (coeffs : List Int) (i : Nat) (buf : ChannelBuffer) (r : BitReader)
    (buf' : ChannelBuffer) (r' : BitReader),
    fixedLoop energy coffset order coeffs i buf r count = .ok () (buf', r') →
    buf'.blocksize = buf.blocksize := by
  intro count
  induction count with
  | zero =>
    intro energy coffset order coeffs i buf r buf' r' h
    injection h with h1 h2
    rw [show buf' = buf from (congrArg Prod.fst h2).symm]
  | succ c ih =>
    intro energy coffset order coeffs i buf r buf' r' h
    unfold fixedLoop at h
    cases hrs : read_signed_rice energy r with
    | err e r1 => rw [hrs] at h; cases h
    | ok residual r1 =>
      rw [hrs] at h
      dsimp only at h
      cases hp : (if order = 0 then Except.ok coffset
          else fixedPredLoop buf (i : Int) (coeffs.take order) 0 0) with
      | error e => rw [hp] at h; cases h
      | ok prediction =>
        rw [hp] at h
        dsimp only at h
        cases hs : buf.setE (i : Int) (wrap32 (residual + prediction)) with
        | none => rw [hs] at h; cases h
        | some buf1 =>
          rw [hs] at h
          have := ih energy coffset order coeffs (i + 1) buf1 r1 buf' r' h
          rw [this, (setE_pres hs).1]

theorem qlpcLoop_pres : ∀ (count : Nat) (energy : Nat) (lpc_coeffs : List Int)
    (i : Nat) (buf : ChannelBuffer) (r : BitReader) (buf' : ChannelBuffer) (r' : BitReader),
    qlpcLoop energy lpc_coeffs i buf r count = .ok () (buf', r') →
    buf'.blocksize = buf.blocksize := by
  intro count
  induction count with
  | zero =>
    intro energy lpc_coeffs i buf r buf' r' h
    injection h with h1 h2
    rw [show buf' = buf from (congrArg Prod.fst h2).symm]
  | succ c ih =>
    intro energy lpc_coeffs i buf r buf' r' h
    unfold qlpcLoop at h
    cases hrs : read_signed_rice energy r with
    | err e r1 => rw [hrs] at h; cases h
    | ok residual r1 =>
      rw [hrs] at h
      dsimp only at h
      cases hp : qlpcPredLoop buf (i : Int) lpc_coeffs 0 0 with
      | error e => rw [hp] at h; cases h
      | ok prediction =>
        rw [hp] at h
        dsimp only at h
        cases hs : buf.setE (i : Int) (wrap32 (residual + wrap32 (shr64 prediction LPCQUANT))) with
        | none => rw [hs] at h; cases h
        | some buf1 =>
          rw [hs] at h
          have := ih energy lpc_coeffs (i + 1) buf1 r1 buf' r' h
          rw [this, (setE_pres hs).1]

theorem finish_ok_post {ch : Nat} {d d' : Decoder}
    (hf : finish_channel_block ch d = .ok () d') :
    d'.reader = d.reader ∧ d'.channels = d.channels ∧ d'.blocksize = d.blocksize ∧
    d'.finished = d.finished ∧ d'.output_buf = d.output_buf ∧
    d'.output_pos = d.output_pos ∧ d'.pending_cmd = d.pending_cmd ∧
    ((∀ b ∈ d.buffers, b.blocksize = d.blocksize) →
      ∀ b ∈ d'.buffers, b.blocksize = d'.blocksize) := by
  unfold finish_channel_block at hf
  cases hb : d.buffers.get? ch with
  | none => rw [hb] at hf; cases hf
  | some buf =>
    rw [hb] at hf
    dsimp only at hf
    cases hsh : (if d.bitshift > 0 then shiftLoop d.bitshift 0 buf d.blocksize
        else .ok buf) with
    | error e => rw [hsh] at hf; cases hf
    | ok buf1 =>
      rw [hsh] at hf
      dsimp only at hf
      cases hm : d.means.get? ch with
      | none => rw [hm] at hf; cases hf
      | some macc =>
        rw [hm] at hf
        dsimp only at hf
        split at hf
        · cases hf
        · cases hw : buf1.wrap_aroundE with
          | error e => rw [hw] at hf; cases hf
          | ok buf2 =>
            rw [hw] at hf
            dsimp only at hf
            split at hf
            · cases hf
            · injection hf with h1 h2
              subst h2
              refine ⟨rfl, rfl, rfl, rfl, rfl, rfl, rfl, ?_⟩
              intro hinv b hbmem
              rcases List.mem_or_eq_of_mem_set hbmem with hmem | heq
              · exact hinv b hmem
              · subst heq
                have hw2 : b.blocksize = buf1.blocksize := (wrap_around_spec buf1 b hw).1
                have hw1 : buf1.blocksize = buf.blocksize := by
                  by_cases hbs : d.bitshift > 0
                  · rw [if_pos hbs] at hsh
                    exact shiftLoop_pres d.blocksize d.bitshift 0 buf buf1 hsh
                  · rw [if_neg hbs] at hsh
                    injection hsh with h'
                    rw [← h']
                have hw0 : buf.blocksize = d.blocksize := hinv buf (List.get?_mem hb)
                show b.blocksize = d.blocksize
                rw [hw2, hw1, hw0]

theorem takeCmd_post {d d' : Decoder} {c : Int} (h : takeCmd d = .ok c d') :
    d'.buffers = d.buffers ∧ d'.blocksize = d.blocksize ∧ d'.channels = d.channels ∧
    d'.finished = d.finished ∧ d'.output_buf = d.output_buf ∧
    d'.output_pos = d.output_pos := by
  unfold takeCmd at h
  cases hp : d.pending_cmd with
  | some c0 =>
    rw [hp] at h
    injection h with h1 h2
    subst h2
    exact ⟨rfl, rfl, rfl, rfl, rfl, rfl⟩
  | none =>
    rw [hp] at h
    dsimp only at h
    cases hr : read_unsigned_rice FNSIZE d.reader with
    | err e r' => rw [hr] at h; cases h
    | ok v r' =>
      rw [hr] at h
      injection h with h1 h2
      subst h2
      exact ⟨rfl, rfl, rfl, rfl, rfl, rfl⟩

theorem zeroBlock_post {d d' : Decoder} (h : zeroBlock d = .ok () d') :
    d'.channels = d.channels ∧ d'.blocksize = d.blocksize ∧
    d'.finished = d.finished ∧ d'.output_buf = d.output_buf ∧
    d'.output_pos = d.output_pos ∧
    ((∀ b ∈ d.buffers, b.blocksize = d.blocksize) →
      ∀ b ∈ d'.buffers, b.blocksize = d'.blocksize) := by
  unfold zeroBlock at h
  dsimp only at h
  cases hb : d.buffers.get? d.current_channel with
  | none => rw [hb] at h; cases h
  | some buf0 =>
    rw [hb] at h
    dsimp only at h
    cases hz : zeroLoop 0 (buf0.resize d.blocksize) d.blocksize with
    | error e => rw [hz] at h; cases h
    | ok buf1 =>
      rw [hz] at h
      dsimp only at h
      have hpost := finish_ok_post h
      obtain ⟨_, hch, hbs, hfin, hob, hop, _, hinvt⟩ := hpost
      refine ⟨by rw [hch], by rw [hbs], by rw [hfin], by rw [hob], by rw [hop], ?_⟩
      intro hinv
      apply hinvt
      intro b hbmem
      rcases List.mem_or_eq_of_mem_set hbmem with hmem | heq
      · exact hinv b hmem
      · subst heq
        rw [zeroLoop_pres d.blocksize 0 _ _ hz, resize_blocksize]

theorem decode_fixed_post {order : Nat} {d d' : Decoder}
    (h : decode_fixed_prediction order d = .ok () d') :
    d'.channels = d.channels ∧ d'.blocksize = d.blocksize ∧
    d'.finished = d.finished ∧ d'.output_buf = d.output_buf ∧
    d'.output_pos = d.output_pos ∧
    ((∀ b ∈ d.buffers, b.blocksize = d.blocksize) →
      ∀ b ∈ d'.buffers, b.blocksize = d'.blocksize) := by
  unfold decode_fixed_prediction at h
  cases he : read_unsigned_rice ENERGYSIZE d.reader with
  | err e r1 => rw [he] at h; cases h
  | ok energy r1 =>
    rw [he] at h
    dsimp only at h
    cases hb : d.buffers.get? d.current_channel with
    | none => rw [hb] at h; cases h
    | some buf0 =>
      rw [hb] at h
      dsimp only at h
      cases hm : d.means.get? d.current_channel with
      | none => rw [hm] at h; cases h
      | some macc =>
        rw [hm] at h
        dsimp only at h
        cases hl : fixedLoop energy (macc.coffset d.blocksize) order
            (FIXED_COEFFS.getD order []) 0 (buf0.resize d.blocksize) r1 d.blocksize with
        | err e p => rw [hl] at h; cases h
        | ok u p =>
          obtain ⟨buf', r2⟩ := p
          rw [hl] at h
          dsimp only at h
          have hpost := finish_ok_post h
          obtain ⟨_, hch, hbs, hfin, hob, hop, _, hinvt⟩ := hpost
          refine ⟨by rw [hch], by rw [hbs], by rw [hfin], by rw [hob], by rw [hop], ?_⟩
          intro hinv
          apply hinvt
          intro b hbmem
          rcases List.mem_or_eq_of_mem_set hbmem with hmem | heq
          · exact hinv b hmem
          · subst heq
            rw [fixedLoop_pres d.blocksize energy (macc.coffset d.blocksize) order
              (FIXED_COEFFS.getD order []) 0 (buf0.resize d.blocksize) r1 b r2 hl,
              resize_blocksize]

theorem decode_qlpc_post {d d' : Decoder} (h : decode_qlpc d = .ok () d') :
    d'.channels = d.channels ∧ d'.blocksize = d.blocksize ∧
    d'.finished = d.finished ∧ d'.output_buf = d.output_buf ∧
    d'.output_pos = d.output_pos ∧
    ((∀ b ∈ d.buffers, b.blocksize = d.blocksize) →
      ∀ b ∈ d'.buffers, b.blocksize = d'.blocksize) := by
  unfold decode_qlpc at h
  cases he : read_unsigned_rice ENERGYSIZE d.reader with
  | err e r1 => rw [he] at h; cases h
  | ok energy r1 =>
    rw [he] at h
    dsimp only at h
    cases ho : read_unsigned_rice LPCQSIZE r1 with
    | err e r2 => rw [ho] at h; cases h
    | ok lpc_order r2 =>
      rw [ho] at h
      dsimp only at h
      split at h
      · cases h
      · cases hc : readCoeffs lpc_order r2 with
        | err e r3 => rw [hc] at h; cases h
        | ok lpc_coeffs r3 =>
          rw [hc] at h
          dsimp only at h
          cases hb : d.buffers.get? d.current_channel with
          | none => rw [hb] at h; cases h
          | some buf0 =>
            rw [hb] at h
            dsimp only at h
            cases hl : qlpcLoop energy lpc_coeffs 0 (buf0.resize d.blocksize) r3 d.blocksize with
            | err e p => rw [hl] at h; cases h
            | ok u p =>
              obtain ⟨buf', r4⟩ := p
              rw [hl] at h
              dsimp only at h
              have hpost := finish_ok_post h
              obtain ⟨_, hch, hbs, hfin, hob, hop, _, hinvt⟩ := hpost
              refine ⟨by rw [hch], by rw [hbs], by rw [hfin], by rw [hob], by rw [hop], ?_⟩
              intro hinv
              apply hinvt
              intro b hbmem
              rcases List.mem_or_eq_of_mem_set hbmem with hmem | heq
              · exact hinv b hmem
              · subst heq
                rw [qlpcLoop_pres d.blocksize energy lpc_coeffs 0
                  (buf0.resize d.blocksize) r3 b r4 hl, resize_blocksize]

theorem invTransfer {dA dB : Decoder} (hb : dB.buffers = dA.buffers)
    (hbs : dB.blocksize = dA.blocksize)
    (hi : ∀ x ∈ dA.buffers, x.blocksize = dA.blocksize) :
    ∀ x ∈ dB.buffers, x.blocksize = dB.blocksize := by
  rw [hb, hbs]; exact hi

theorem decodeLoopF_post : ∀ (fuel nchan blocks : Nat) (d : Decoder) (b : Bool) (d' : Decoder),
    decodeLoopF fuel nchan blocks d = .ok b d' →
    ((∀ x ∈ d.buffers, x.blocksize = d.blocksize) →
      ∀ x ∈ d'.buffers, x.blocksize = d'.blocksize) ∧
    d'.channels = d.channels ∧ d'.output_buf = d.output_buf ∧
    d'.output_pos = d.output_pos ∧ (b = false → d'.finished = true) := by
  intro fuel
  induction fuel with
  | zero => intro nchan blocks d b d' h; cases h
  | succ f ih =>
    intro nchan blocks d b d' h
    unfold decodeLoopF at h
    by_cases hlt : blocks < nchan
    case neg =>
      rw [if_neg hlt] at h
      injection h with h1 h2
      subst h2
      exact ⟨fun hi => hi, rfl, rfl, rfl, fun hb => by rw [← h1] at hb; cases hb⟩
    case pos =>
      rw [if_pos hlt] at h
      cases htc : takeCmd d with
      | err e d1 => rw [htc] at h; cases h
      | ok cmd d1 =>
        rw [htc] at h
        dsimp only at h
        obtain ⟨hbuf1, hbs1, hch1, hfin1, hob1, hop1⟩ := takeCmd_post htc
        by_cases hq : cmd = FN_QUIT
        · rw [if_pos hq] at h
          injection h with h1 h2
          subst h2
          refine ⟨?_, by rw [hch1], by rw [hob1], by rw [hop1], fun _ => rfl⟩
          intro hi
          exact invTransfer (by rw [hbuf1]) (by rw [hbs1]) hi
        · rw [if_neg hq] at h
          by_cases hbsz : cmd = FN_BLOCKSIZE
          · rw [if_pos hbsz] at h
            cases hu : read_ulong d1.reader with
            | err e r => rw [hu] at h; cases h
            | ok v r =>
              rw [hu] at h
              dsimp only at h
              split at h
              · cases h
              · obtain ⟨hiv, hch, hob, hop, hfin⟩ := ih nchan blocks _ b d' h
                refine ⟨?_, by rw [hch, hch1], by rw [hob, hob1], by rw [hop, hop1], hfin⟩
                intro _
                apply hiv
                intro x hx
                simp only [List.mem_map] at hx
                obtain ⟨y, hy, hxy⟩ := hx
                rw [← hxy, resize_blocksize]
          · rw [if_neg hbsz] at h
            by_cases hbsh : cmd = FN_BITSHIFT
            · rw [if_pos hbsh] at h
              cases hu : read_unsigned_rice BITSHIFTSIZE d1.reader with
              | err e r => rw [hu] at h; cases h
              | ok v r =>
                rw [hu] at h
                dsimp only at h
                obtain ⟨hiv, hch, hob, hop, hfin⟩ := ih nchan blocks _ b d' h
                refine ⟨?_, by rw [hch, hch1], by rw [hob, hob1], by rw [hop, hop1], hfin⟩
                intro hi
                exact hiv (invTransfer (by rw [hbuf1]) (by rw [hbs1]) hi)
            · rw [if_neg hbsh] at h
              by_cases hvb : cmd = FN_VERBATIM
              · rw [if_pos hvb] at h
                cases hu : read_unsigned_rice VERBATIM_CKSIZE_SIZE d1.reader with
                | err e r => rw [hu] at h; cases h
                | ok nbytes r =>
                  rw [hu] at h
                  dsimp only at h
                  cases hsv : skipVerbatim nbytes r with
                  | err e r2 => rw [hsv] at h; cases h
                  | ok u r2 =>
                    rw [hsv] at h
                    dsimp only at h
                    obtain ⟨hiv, hch, hob, hop, hfin⟩ := ih nchan blocks _ b d' h
                    refine ⟨?_, by rw [hch, hch1], by rw [hob, hob1], by rw [hop, hop1], hfin⟩
                    intro hi
                    exact hiv (invTransfer (by rw [hbuf1]) (by rw [hbs1]) hi)
              · rw [if_neg hvb] at h
                by_cases hz : cmd = FN_ZERO
                · rw [if_pos hz] at h
                  cases hzb : zeroBlock d1 with
                  | err e d2 => rw [hzb] at h; cases h
                  | ok u d2 =>
                    rw [hzb] at h
                    dsimp only at h
                    obtain ⟨hch2, hbs2, hfin2, hob2, hop2, hinv2⟩ := zeroBlock_post hzb
                    obtain ⟨hiv, hch, hob, hop, hfin⟩ := ih nchan (blocks + 1) _ b d' h
                    refine ⟨?_, by rw [hch, hch2, hch1], by rw [hob, hob2, hob1],
                      by rw [hop, hop2, hop1], hfin⟩
                    intro hi
                    exact hiv (hinv2 (invTransfer (by rw [hbuf1]) (by rw [hbs1]) hi))
                · rw [if_neg hz] at h
                  by_cases hd : cmd = FN_DIFF0 ∨ cmd = FN_DIFF1 ∨ cmd = FN_DIFF2 ∨ cmd = FN_DIFF3
                  · rw [if_pos hd] at h
                    cases hfp : decode_fixed_prediction cmd.toNat d1 with
                    | err e d2 => rw [hfp] at h; cases h
                    | ok u d2 =>
                      rw [hfp] at h
                      dsimp only at h
                      obtain ⟨hch2, hbs2, hfin2, hob2, hop2, hinv2⟩ := decode_fixed_post hfp
                      obtain ⟨hiv, hch, hob, hop, hfin⟩ := ih nchan (blocks + 1) _ b d' h
                      refine ⟨?_, by rw [hch, hch2, hch1], by rw [hob, hob2, hob1],
                        by rw [hop, hop2, hop1], hfin⟩
                      intro hi
                      exact hiv (hinv2 (invTransfer (by rw [hbuf1]) (by rw [hbs1]) hi))
                  · rw [if_neg hd] at h
                    by_cases hql : cmd = FN_QLPC
                    · rw [if_pos hql] at h
                      cases hqd : decode_qlpc d1 with
                      | err e d2 => rw [hqd] at h; cases h
                      | ok u d2 =>
                        rw [hqd] at h
                        dsimp only at h
                        obtain ⟨hch2, hbs2, hfin2, hob2, hop2, hinv2⟩ := decode_qlpc_post hqd
                        obtain ⟨hiv, hch, hob, hop, hfin⟩ := ih nchan (blocks + 1) _ b d' h
                        refine ⟨?_, by rw [hch, hch2, hch1], by rw [hob, hob2, hob1],
                          by rw [hop, hop2, hop1], hfin⟩
                        intro hi
                        exact hiv (hinv2 (invTransfer (by rw [hbuf1]) (by rw [hbs1]) hi))
                    · rw [if_neg hql] at h
                      cases h

/-- C2 (amended): after QUIT the sequence does terminate — the call that
dispatches QUIT leaves the decoder marked `finished` with its (already
exhausted) output unchanged, and every call on a finished, exhausted decoder
returns no element.  (After an *error* element the sequence is not fused: the
decoder is not marked finished and subsequent calls decode again —
see the counterexample.) -/
theorem c2_amended_quit_terminates :
    (∀ d : Decoder, d.finished = true → d.output_buf.length ≤ d.output_pos →
      ShnSamples.next d = (none, d)) ∧
    (∀ (d d' : Decoder), decode_next_block d = .ok false d' →
      d'.finished = true ∧ d'.output_buf = d.output_buf ∧ d'.output_pos = d.output_pos) := by
  constructor
  · intro d hfin hpos
    unfold ShnSamples.next
    have h1 : next_sample d = none := by
      unfold next_sample
      rw [if_neg (by omega)]
    rw [h1, hfin]
    rfl
  · intro d d' h
    unfold decode_next_block at h
    by_cases hfin : d.finished
    · rw [if_pos hfin] at h
      injection h with h1 h2
      subst h2
      exact ⟨hfin, rfl, rfl⟩
    · rw [if_neg hfin] at h
      cases hl : decodeLoopF (decodeFuel d) d.channels 0 d with
      | err e dL => rw [hl] at h; cases h
      | ok bL dL =>
        rw [hl] at h
        cases bL with
        | false =>
          dsimp only at h
          injection h with h1 h2
          subst h2
          obtain ⟨_, _, hob, hop, hfin'⟩ := decodeLoopF_post (decodeFuel d) d.channels 0 d false _ hl
          exact ⟨hfin' rfl, hob, hop⟩
        | true =>
          dsimp only at h
          cases hio : interleave_output dL with
          | err e d2 => rw [hio] at h; cases h
          | ok u d2 =>
            rw [hio] at h
            dsimp only at h
            injection h with h1
            cases h1

/-- C9 (amended): each successful production pass (which executes exactly
`channels` block-producing commands) refills the output buffer with exactly
`blocksize * channels` samples, all of which are emitted before the next
pass; a pass aborted by QUIT emits nothing. -/
theorem c9_amended_pass_output (d d' : Decoder)
    (hinv : ∀ x ∈ d.buffers, x.blocksize = d.blocksize)
    (hdec : decode_next_block d = .ok true d') :
    d'.output_buf.length = d'.blocksize * d'.channels ∧ d'.output_pos = 0 := by
  unfold decode_next_block at hdec
  by_cases hfin : d.finished
  · rw [if_pos hfin] at hdec
    injection hdec with h1
    cases h1
  · rw [if_neg hfin] at hdec
    cases hl : decodeLoopF (decodeFuel d) d.channels 0 d with
    | err e dL => rw [hl] at hdec; cases hdec
    | ok bL dL =>
      rw [hl] at hdec
      cases bL with
      | false => dsimp only at hdec; injection hdec with h1; cases h1
      | true =>
        dsimp only at hdec
        cases hio : interleave_output dL with
        | err e d2 => rw [hio] at hdec; cases hdec
        | ok u d2 =>
          rw [hio] at hdec
          dsimp only at hdec
          injection hdec with h1 h2
          subst h2
          obtain ⟨hivL, _, _, _, _⟩ :=
            decodeLoopF_post (decodeFuel d) d.channels 0 d true dL hl
          obtain ⟨hlen, hpos, hbs, hch⟩ := interleave_output_spec dL _ (hivL hinv) hio
          exact ⟨by rw [hlen, hbs, hch], hpos⟩

theorem interleaveAll_zero (buffers : List ChannelBuffer) :
    ∀ (count i : Nat), interleaveAll buffers 0 i count = .ok [] := by
  intro count
  induction count with
  | zero => intro i; rfl
  | succ c ih =>
    intro i
    unfold interleaveAll
    show (match interleaveAll buffers 0 (i + 1) c with
      | Except.error e => Except.error e
      | Except.ok rest => Except.ok ([] ++ rest)) = Except.ok []
    rw [ih (i + 1)]
    rfl

/-- C10: when the header's channels field decodes to 0, opening succeeds and
the sample sequence is empty without any QUIT: `decode_next_block` returns
success without consuming anything (reader and pending command unchanged,
output buffer empty), so every iterator call yields no element.  The third
conjunct opens the concrete `c10bytes` input (`channels = 0`): it succeeds,
with the first audio command still pending and the output empty. -/
theorem c10_zero_channels :
    (∀ d : Decoder, d.channels = 0 → d.finished = false →
      decode_next_block d = .ok true { d with output_buf := [], output_pos := 0 }) ∧
    (∀ d : Decoder, d.channels = 0 → d.finished = false → d.output_buf = [] →
      ShnSamples.next d = (none, { d with output_buf := [], output_pos := 0 })) ∧
    (ShnReader.new c10bytes).toOption.map
      (fun p => (p.1.channels, p.1.finished, p.1.output_buf, p.1.pending_cmd))
      = some (0, false, [], some 0) := by
  have part1 : ∀ d : Decoder, d.channels = 0 → d.finished = false →
      decode_next_block d = .ok true { d with output_buf := [], output_pos := 0 } := by
    intro d hch hfin
    unfold decode_next_block
    rw [if_neg (by rw [hfin]; exact Bool.false_ne_true)]
    have hfuel : decodeFuel d = (2 * totalBits d.reader + 1) + 1 := by
      unfold decodeFuel
      omega
    rw [hfuel, hch]
    have hloop : decodeLoopF (2 * totalBits d.reader + 1 + 1) 0 0 d = .ok true d := by
      unfold decodeLoopF
      rw [if_neg (by omega)]
    rw [hloop]
    dsimp only
    unfold interleave_output
    dsimp only
    rw [if_neg (by rw [hch]; omega), hch, interleaveAll_zero]
  refine ⟨part1, ?_, rfl⟩
  intro d hch hfin hout
  unfold ShnSamples.next
  have h1 : next_sample d = none := by
    unfold next_sample
    rw [if_neg (by rw [hout]; simp)]
  rw [h1]
  dsimp only
  rw [hfin]
  rw [if_neg (by decide)]
  rw [part1 d hch hfin]
  dsimp only
  have h2 : next_sample { d with output_buf := [], output_pos := 0 } = none := by
    unfold next_sample
    simp
  rw [h2, hfin]

/-- Witness for C2 (amended) at a concrete finished decoder. -/
theorem c2_witness : ShnSamples.next c2FinD = (none, c2FinD) :=
  c2_amended_quit_terminates.1 c2FinD (by decide) (by decide)

/-- Witness for C9 (amended): the first pass over `c9bytes` (blocksize 1,
2 channels) puts `1 * 2` samples in the output buffer. -/
theorem c9_witness :
    c9D1.output_buf.length = c9D1.blocksize * c9D1.channels ∧ c9D1.output_pos = 0 :=
  c9_amended_pass_output c9D c9D1 (by decide) (by rfl)

/-- Witness for C10 at the decoder opened from `c10bytes`. -/
theorem c10_witness :
    ShnSamples.next c10D = (none, { c10D with output_buf := [], output_pos := 0 }) :=
  c10_zero_channels.2.1 c10D (by rfl) (by rfl) (by rfl)

/-! ## C6: the rolling-mean DC offset -/

theorem foldl_push_len_range :
    ∀ (ms : List Int) (acc : MeanAccumulator),
      (∀ v ∈ acc.values, -2147483648 ≤ v ∧ v < 2147483648) →
      (∀ m ∈ ms, -2147483648 ≤ m ∧ m < 2147483648) →
      (ms.foldl MeanAccumulator.push acc).values.length = acc.values.length ∧
      ∀ v ∈ (ms.foldl MeanAccumulator.push acc).values,
        -2147483648 ≤ v ∧ v < 2147483648 := by
  intro ms
  induction ms with
  | nil => intro acc hacc _; exact ⟨rfl, hacc⟩
  | cons a t ih =>
    intro acc hacc hms
    have hlen : (acc.push a).values.length = acc.values.length := by
      unfold MeanAccumulator.push
      dsimp only
      split
      · rfl
      · simp
    have hrange : ∀ v ∈ (acc.push a).values, -2147483648 ≤ v ∧ v < 2147483648 := by
      have hmem : ∀ x, x ∈ (acc.push a).values →
          x ∈ acc.values ∨ x = a := by
        intro x hx
        unfold MeanAccumulator.push at hx
        dsimp only at hx
        split at hx
        · exact Or.inl hx
        · exact List.mem_or_eq_of_mem_set hx
      intro x hx
      rcases hmem x hx with h | h
      · exact hacc x h
      · subst h; exact hms x (by simp)
    obtain ⟨l, r⟩ := ih (acc.push a) hrange (fun x hx => hms x (List.mem_cons_of_mem _ hx))
    exact ⟨by rw [List.foldl_cons, l, hlen], by rw [List.foldl_cons]; exact r⟩

theorem i64Sum_acc_eq_sum :
    ∀ (l : List Int) (acc : Int),
      (∀ v ∈ l, -2147483648 ≤ v ∧ v < 2147483648) →
      -9223372036854775808 + 2147483648 * l.length ≤ acc →
      acc + 2147483648 * l.length ≤ 9223372036854775808 →
      l.foldl (fun a v => wrap64 (a + v)) acc = acc + l.sum := by
  intro l
  induction l with
  | nil => intro acc _ _ _; simp
  | cons v t ih =>
    intro acc hr hlo hhi
    have hv := hr v (by simp)
    simp only [List.length_cons] at hlo hhi
    push_cast at hlo hhi
    have hw : wrap64 (acc + v) = acc + v := by
      apply wrap64_eq_of_range
      · linarith
      · linarith
    rw [List.foldl_cons, hw]
    have := ih (acc + v) (fun x hx => hr x (List.mem_cons_of_mem _ hx))
      (by push_cast; linarith) (by push_cast; linarith)
    rw [this, List.sum_cons]
    ring

theorem sum_range_bound :
    ∀ (l : List Int), (∀ v ∈ l, -2147483648 ≤ v ∧ v < 2147483648) →
      -(2147483648 * l.length) ≤ l.sum ∧ l.sum ≤ 2147483647 * l.length := by
  intro l
  induction l with
  | nil => intro _; simp
  | cons a t ih =>
    intro hr
    have ha := hr a (by simp)
    obtain ⟨hlo, hhi⟩ := ih (fun x hx => hr x (List.mem_cons_of_mem _ hx))
    simp only [List.sum_cons, List.length_cons]
    push_cast
    constructor <;> linarith

theorem tdiv_range {a n : Int} (hn : 0 < n)
    (hlo : -(n * 2147483648) ≤ a) (hhi : a < n * 2147483648) :
    -2147483648 ≤ a.tdiv n ∧ a.tdiv n < 2147483648 := by
  rcases le_or_lt 0 a with ha | ha
  · rw [Int.tdiv_eq_ediv ha (le_of_lt hn)]
    constructor
    · have := Int.ediv_nonneg ha (le_of_lt hn)
      linarith
    · rw [Int.ediv_lt_iff_lt_mul hn]
      linarith
  · have hneg : a.tdiv n = -((-a).tdiv n) := by
      rw [← Int.neg_tdiv, neg_neg]
    rw [hneg, Int.tdiv_eq_ediv (by linarith) (le_of_lt hn)]
    have h1 : (-a) / n < 2147483648 + 1 := by
      rw [Int.ediv_lt_iff_lt_mul hn]
      linarith
    have h2 : 0 ≤ (-a) / n := Int.ediv_nonneg (by linarith) (le_of_lt hn)
    constructor <;> linarith

/-- C6: for every `nmean > 0` and every sequence of pushed per-block means
(`i32` values, so in `[-2^31, 2^31)`; `nmean` is a `u32` field, so below
`2^31`), `coffset()` equals `(S + nmean/2)` integer-divided (truncating, as
Rust `/`) by `nmean`, where `S` is the sum over all `nmean` circular-buffer
slots with never-written slots counted as zero (the slots of the folded state,
which start as `nmean` zeroes); when `nmean = 0`, `coffset()` returns 0 and
`push` is a no-op.  (`nmean < 2^32` because the header field is a `u32`;
pushed means are `i32` values.) -/
theorem c6_coffset_rounded_mean (nmean : Nat) (ms : List Int) (bs : Nat)
    (hn : nmean < 4294967296)
    (hms : ∀ m ∈ ms, -2147483648 ≤ m ∧ m < 2147483648) :
    (0 < nmean →
      (ms.foldl MeanAccumulator.push (MeanAccumulator.new nmean)).coffset bs
        = rustDiv ((ms.foldl MeanAccumulator.push (MeanAccumulator.new nmean)).values.sum
            + rustDiv (nmean : Int) 2) (nmean : Int)) ∧
    (nmean = 0 →
      (ms.foldl MeanAccumulator.push (MeanAccumulator.new nmean)).coffset bs = 0 ∧
      ∀ m, (ms.foldl MeanAccumulator.push (MeanAccumulator.new nmean)).push m
          = ms.foldl MeanAccumulator.push (MeanAccumulator.new nmean)) := by
  have hinit : ∀ v ∈ (MeanAccumulator.new nmean).values,
      -2147483648 ≤ v ∧ v < 2147483648 := by
    intro v hv
    unfold MeanAccumulator.new at hv
    dsimp only at hv
    rw [List.mem_replicate] at hv
    rw [hv.2]
    norm_num
  obtain ⟨hlen, hrange⟩ := foldl_push_len_range ms (MeanAccumulator.new nmean) hinit hms
  have hlen' :
      (ms.foldl MeanAccumulator.push (MeanAccumulator.new nmean)).values.length = nmean := by
    rw [hlen]
    unfold MeanAccumulator.new
    simp
  set acc := ms.foldl MeanAccumulator.push (MeanAccumulator.new nmean) with hacc
  constructor
  · intro hpos
    obtain ⟨hslo, hshi⟩ := sum_range_bound acc.values hrange
    rw [hlen'] at hslo hshi
    have hnz : (0 : Int) < (nmean : Int) := by exact_mod_cast hpos
    have hn2eq : rustDiv (nmean : Int) 2 = (nmean : Int) / 2 := by
      unfold rustDiv
      exact Int.tdiv_eq_ediv (by positivity) (by norm_num)
    have hn2lo : 0 ≤ rustDiv (nmean : Int) 2 := by
      rw [hn2eq]
      exact Int.ediv_nonneg (by positivity) (by norm_num)
    have hn2hi : rustDiv (nmean : Int) 2 < (nmean : Int) := by
      rw [hn2eq, Int.ediv_lt_iff_lt_mul (by norm_num)]
      linarith
    have hsum : i64Sum acc.values = acc.values.sum := by
      unfold i64Sum
      have := i64Sum_acc_eq_sum acc.values 0 hrange
        (by rw [hlen']; push_cast; nlinarith)
        (by rw [hlen']; push_cast; nlinarith)
      rw [this]
      ring
    have hw64 : wrap64 (acc.values.sum + rustDiv (nmean : Int) 2)
        = acc.values.sum + rustDiv (nmean : Int) 2 := by
      apply wrap64_eq_of_range
      · push_cast at hslo
        nlinarith
      · push_cast at hshi
        nlinarith
    have hq := tdiv_range (a := acc.values.sum + rustDiv (nmean : Int) 2)
      (n := (nmean : Int)) hnz
      (by push_cast at hslo; nlinarith)
      (by push_cast at hshi; nlinarith)
    have hw32 : wrap32 (rustDiv (acc.values.sum + rustDiv (nmean : Int) 2) (nmean : Int))
        = rustDiv (acc.values.sum + rustDiv (nmean : Int) 2) (nmean : Int) :=
      wrap32_eq_of_range _ hq.1 hq.2
    unfold MeanAccumulator.coffset
    dsimp only
    rw [hlen']
    rw [if_neg (by omega), hsum, hw64]
    exact hw32
  · intro h0
    constructor
    · unfold MeanAccumulator.coffset
      dsimp only
      rw [hlen']
      rw [if_pos h0]
    · intro m
      unfold MeanAccumulator.push
      dsimp only
      rw [if_pos (by rw [hlen', h0])]

/-- Witness for C6: one mean of 10 pushed into a window of 4 gives
`(10 + 2) / 4 = 3` (the window dilutes the estimate with its zero slots). -/
theorem c6_witness :
    ([(10 : Int)].foldl MeanAccumulator.push (MeanAccumulator.new 4)).coffset 256
      = rustDiv (([(10 : Int)].foldl MeanAccumulator.push (MeanAccumulator.new 4)).values.sum
          + rustDiv ((4 : Nat) : Int) 2) ((4 : Nat) : Int) :=
  (c6_coffset_rounded_mean 4 [(10 : Int)] 256 (by decide) (by decide)).1 (by decide)
